import Mathlib

/-!
# durian-runtuh: a verification development

A shallow embedding of `main.go` (a concurrent page scraper) and theorems about it.

* Go strings are modelled as `List Char`: the program only compares against the ASCII
  separators `,` and `.` and decodes ASCII digits, so the character view and the byte
  view of a UTF-8 text agree on everything the program does.
* `int64`/`uint64` arithmetic is `Int`/`Nat` arithmetic with explicit wrap-around.
* Library calls whose result the program only branches on (HTTP, file system) are
  parameters of the embedding.
-/

namespace DurianRuntuh

/-! ## Strings -/

/-- The Go call `strings.Replace(s, old, "", -1)` for a one-character `old`:
every occurrence of `old` is removed. -/
def stringsReplaceAllEmpty (s : List Char) (old : Char) : List Char :=
  s.filter (fun c => c != old)

/-- The Go call `strings.Split(s, sep)` for a one-character `sep`: the pieces of `s`
between the occurrences of `sep`; always at least one piece. -/
def stringsSplit (sep : Char) : List Char → List (List Char)
  | [] => [[]]
  | c :: cs =>
    if c = sep then [] :: stringsSplit sep cs
    else
      match stringsSplit sep cs with
      | [] => [[c]]
      | p :: ps => (c :: p) :: ps

/-! ## `strconv.ParseUint` and `strconv.ParseInt` -/

/-- The two error kinds of `strconv` that the decoder can produce. -/
inductive NumError where
  | ErrSyntax
  | ErrRange
  deriving DecidableEq, Repr

def maxUint64 : Nat := 2 ^ 64 - 1

/-- The helper `lower(c) = c | ('x' - 'X')` of `strconv`. -/
def lower (c : Nat) : Nat := c ||| 0x20

/-- The digit classification `switch` in the loop of `ParseUint` (without the underscore
case, which needs `base == 0`): `none` is the `default` branch. -/
def digitOf (c : Char) : Option Nat :=
  if 48 ≤ c.toNat ∧ c.toNat ≤ 57 then some (c.toNat - 48)
  else if 97 ≤ lower c.toNat ∧ lower c.toNat ≤ 122 then some (lower c.toNat - 97 + 10)
  else none

/-- The digit loop of `ParseUint`; `n` is the accumulator (a `uint64`). -/
def parseUintLoop (base cutoff maxVal : Nat) : List Char → Nat → Nat × Option NumError
  | [], n => (n, none)
  | c :: cs, n =>
    match digitOf c with
    | none => (0, some NumError.ErrSyntax)
    | some d =>
      if d ≥ base then (0, some NumError.ErrSyntax)
      else if n ≥ cutoff then (maxVal, some NumError.ErrRange)
      else
        let n0 := (n * base) % 2 ^ 64
        let n1 := (n0 + d) % 2 ^ 64
        if n1 < n0 ∨ n1 > maxVal then (maxVal, some NumError.ErrRange)
        else parseUintLoop base cutoff maxVal cs n1

/-- The function `strconv.ParseUint(s, base, bitSize)` for an explicit base `2..36` and a
bit size `1..64` (the automatic base `0` and its prefixes are not used by the program). -/
def ParseUint (s : List Char) (base bitSize : Nat) : Nat × Option NumError :=
  if s = [] then (0, some NumError.ErrSyntax)
  else
    let cutoff := maxUint64 / base + 1
    let maxVal := 2 ^ bitSize - 1
    parseUintLoop base cutoff maxVal s 0

/-- The conversion `int64(u)` of a `uint64`, and the wrap-around of `int64` arithmetic. -/
def wrapInt64 (i : Int) : Int := (i + 2 ^ 63) % 2 ^ 64 - 2 ^ 63

/-- The function `strconv.ParseInt(s, base, bitSize)`: value and error. On a syntax error the
value is `0`; on a range error it is the nearest bound. -/
def ParseInt (s : List Char) (base bitSize : Nat) : Int × Option NumError :=
  match s with
  | [] => (0, some NumError.ErrSyntax)
  | c :: rest =>
    let neg : Bool := if c = '+' then false else if c = '-' then true else false
    let body : List Char := if c = '+' then rest else if c = '-' then rest else c :: rest
    match ParseUint body base bitSize with
    | (_, some NumError.ErrSyntax) => (0, some NumError.ErrSyntax)
    | (un, _) =>
      let cutoff : Nat := 2 ^ (bitSize - 1)
      if !neg && decide (un ≥ cutoff) then ((cutoff : Int) - 1, some NumError.ErrRange)
      else if neg && decide (un > cutoff) then (-(cutoff : Int), some NumError.ErrRange)
      else
        let n := wrapInt64 (un : Int)
        (if neg then wrapInt64 (-n) else n, none)

/-! ## The record type and the row decoder of `extractData` -/

/-- The struct `Tender`. -/
structure Tender where
  Title : List Char
  Category : List Char
  Ministry : List Char
  Company : List Char
  Value : Int
  Reason : List Char
  deriving DecidableEq, Repr

/-- The zero value `&Tender{}`. -/
def Tender.zero : Tender := ⟨[], [], [], [], 0, []⟩

/-- The statements of `case 4`: the commas are removed, the text is split at `.`, the first
piece is decoded by `ParseInt(_, 10, 64)`, the error is only logged, and the returned value is
what is stored in `Value`. -/
def decodeValue (text : List Char) : Int :=
  let stringVal := stringsReplaceAllEmpty text ','
  (ParseInt ((stringsSplit '.' stringVal).headD []) 10 64).1

/-- The body of the inner `Each` callback of `extractData`: the `switch i` on the index of the
selected cell, applied to the cell's text. -/
def cellCallback (tender : Tender) (i : Nat) (text : List Char) : Tender :=
  match i with
  | 0 => { tender with Title := text }
  | 1 => { tender with Category := text }
  | 2 => { tender with Ministry := text }
  | 3 => { tender with Company := text }
  | 4 => { tender with Value := decodeValue text }
  | 5 => { tender with Reason := text }
  | _ => tender

/-- The method `Selection.Each(f)` over a list of selected items: `f` is called with the
index and the item, in order; the state the callback mutates is threaded through. -/
def eachIdx {σ α : Type} (f : σ → Nat → α → σ) : Nat → List α → σ → σ
  | _, [], s => s
  | i, x :: xs, s => eachIdx f (i + 1) xs (f s i x)

/-- The record built for one row from the texts of its selected cells. -/
def tenderOfCells (cells : List (List Char)) : Tender :=
  eachIdx cellCallback 0 cells Tender.zero

/-- The outer `Each` callback of `extractData` over the selected rows, each given by the texts
of its selected cells: one record is appended per row. -/
def extractRows (rows : List (List (List Char))) : List Tender :=
  eachIdx (fun tenders _ cols => tenders ++ [tenderOfCells cols]) 0 rows []

/-! ## The reading of a numeric cell, as the specification words it -/

/-- A decimal digit `0..9`. -/
def isDecDigit (c : Char) : Bool := decide (48 ≤ c.toNat) && decide (c.toNat ≤ 57)

/-- The number a run of decimal digits denotes, continuing from `n`. -/
def digitsFrom (n : Nat) (ds : List Char) : Nat :=
  ds.foldl (fun m c => m * 10 + (c.toNat - 48)) n

/-- The number a run of decimal digits denotes. -/
def digitsValue (ds : List Char) : Nat := digitsFrom 0 ds

/-- A non-empty run of decimal digits read as a natural number. -/
def readDigits (ds : List Char) : Option Nat :=
  if ds ≠ [] ∧ ds.all isDecDigit = true then some (digitsValue ds) else none

/-- The text after an optional leading sign. -/
def signBody : List Char → List Char
  | [] => []
  | c :: cs => if c = '+' ∨ c = '-' then cs else c :: cs

/-- A well-formed base-10 integer: an optional sign and a non-empty run of digits. -/
def readInteger (s : List Char) : Option Int :=
  match s with
  | [] => none
  | c :: _ =>
    if c = '-' then (readDigits (signBody s)).map (fun n => -(n : Int))
    else (readDigits (signBody s)).map (fun n => (n : Int))

/-- The text with every `,` removed, up to the first `.`. -/
def integerPart (text : List Char) : List Char :=
  (text.filter (fun c => c != ',')).takeWhile (fun c => c != '.')

/-! ## The document tree and the two `goquery` selections -/

/-- A node of the parsed document: a text node or an element with its children. -/
inductive Node where
  | text (data : List Char)
  | element (tag : String) (children : List Node)

/-- The document node returned by the parser, with its top-level children. -/
structure Document where
  children : List Node

/-- One compound selector of the two the program uses: a tag name, optionally with
`:not(:first-child)`. -/
structure Compound where
  tag : String
  notFirstChild : Bool

/-- Whether a compound selector matches an element, given as its tag and whether it is the
first element child of its parent. -/
def Compound.matches (c : Compound) (e : String × Bool) : Bool :=
  c.tag == e.1 && !(c.notFirstChild && e.2)

/-- Some ancestor (nearest first, each with the ancestors above it) satisfies `p`. -/
def anyAncestor (p : String × Bool → List (String × Bool) → Bool) :
    List (String × Bool) → Bool
  | [] => false
  | a :: as => p a as || anyAncestor p as

/-- A chain of compound selectors joined by the descendant combinator, written from the
subject leftwards: `table tbody tr:not(:first-child)` is `[tr:not(:first-child), tbody, table]`.
The subject matches the element and the rest of the chain matches some ancestor. -/
def matchChain : List Compound → String × Bool → List (String × Bool) → Bool
  | [], _, _ => false
  | c :: cs, e, anc => c.matches e && (cs.isEmpty || anyAncestor (matchChain cs) anc)

mutual
/-- All elements of a subtree that match the chain, in document order. `anc` are the
ancestors of the node and `first` says whether no element sibling precedes it. -/
def matchAll (chain : List Compound) (anc : List (String × Bool)) (first : Bool) :
    Node → List Node
  | .text _ => []
  | .element tag kids =>
    (if matchChain chain (tag, first) anc then [Node.element tag kids] else []) ++
      matchAllChildren chain ((tag, first) :: anc) true kids
/-- The matches in a list of sibling nodes; text nodes do not count as children for
`:first-child`. -/
def matchAllChildren (chain : List Compound) (anc : List (String × Bool)) (first : Bool) :
    List Node → List Node
  | [] => []
  | .text _ :: rest => matchAllChildren chain anc first rest
  | .element tag kids :: rest =>
    matchAll chain anc first (.element tag kids) ++ matchAllChildren chain anc false rest
end

mutual
/-- The method `Selection.Text()` on one node: the text of all its descendants. -/
def nodeText : Node → List Char
  | .text d => d
  | .element _ kids => nodesText kids
/-- The concatenated text of a list of nodes. -/
def nodesText : List Node → List Char
  | [] => []
  | n :: rest => nodeText n ++ nodesText rest
end

/-- The call `soup.Find("table tbody tr:not(:first-child)")`: the matching descendants of the
document node. A child of the document node is never a first child for the selector engine. -/
def findRows (soup : Document) : List Node :=
  let chain : List Compound := [⟨"tr", true⟩, ⟨"tbody", false⟩, ⟨"table", false⟩]
  soup.children.flatMap (fun n => matchAll chain [] false n)

/-- The call `cols.Find("td:not(:first-child)")` on one selected row: the matching proper
descendants of the row. The selector has no ancestor part, so the row alone decides. -/
def findCells (cols : Node) : List Node :=
  match cols with
  | .text _ => []
  | .element tag kids => matchAllChildren [⟨"td", true⟩] [(tag, false)] true kids

/-- A cell whose content is the text `text`. -/
def cellNode (text : List Char) : Node := .element "td" [.text text]

/-- Sibling elements laid out with the text nodes `gap` (line breaks and indentation, possibly
none) before each of them and after the last. -/
def spaced (gap : List (List Char)) (nodes : List Node) : List Node :=
  nodes.flatMap (fun n => gap.map Node.text ++ [n]) ++ gap.map Node.text

/-- A table row with the given cell texts. -/
def rowNode (gap : List (List Char)) (cells : List (List Char)) : Node :=
  .element "tr" (spaced gap (cells.map cellNode))

/-- A page holding one table whose rows are the given rows of cell texts. -/
def tablePage (gap : List (List Char)) (rows : List (List (List Char))) : Document :=
  ⟨[.element "html" [.element "head" [],
      .element "body" [.element "table"
        [.element "tbody" (spaced gap (rows.map (rowNode gap)))]]]]⟩

/-! ## Pages holding one table, as the specification words them -/

/-- All rows of a page: its `tr` elements, in document order. -/
def allRows (soup : Document) : List Node :=
  soup.children.flatMap (fun n => matchAll [⟨"tr", false⟩] [] false n)

/-- The element nodes among a list of siblings, in order. -/
def elements : List Node → List Node
  | [] => []
  | .text _ :: rest => elements rest
  | .element tag kids :: rest => .element tag kids :: elements rest

/-- The tag of an element; a text node has none. -/
def tagOf : Node → String
  | .text _ => ""
  | .element tag _ => tag

/-- The children of an element; a text node has none. -/
def childrenOf : Node → List Node
  | .text _ => []
  | .element _ kids => kids

mutual
/-- No element of the subtree, the node itself included, has the tag `tag`. -/
def freeOf (tag : String) : Node → Bool
  | .text _ => true
  | .element t kids => t != tag && freeOfAll tag kids
/-- No element of the subtrees has the tag `tag`. -/
def freeOfAll (tag : String) : List Node → Bool
  | [] => true
  | n :: rest => freeOf tag n && freeOfAll tag rest
end

/-- An element on the path from the document down to the table body, with the siblings
before and after the next element of the path. -/
structure Frame where
  tag : String
  before : List Node
  after : List Node

/-- The subtree that nests `inner` inside the elements of the path, outermost first. -/
def plug : List Frame → Node → Node
  | [], inner => inner
  | f :: fs, inner => .element f.tag (f.before ++ plug fs inner :: f.after)

/-- A page whose table body, with the children `body`, sits inside the elements `path`, with
the top-level nodes `before` and `after` around the outermost of them. -/
def pageWith (before after : List Node) (path : List Frame) (body : List Node) : Document :=
  ⟨before ++ plug path (.element "tbody" body) :: after⟩

/-- The table body lies in a table and no row occurs outside of it: no element of the path is
a row, some element of the path is a `table`, and nothing beside the path holds a row. -/
def rowsOnlyInBody (before after : List Node) (path : List Frame) : Bool :=
  freeOfAll "tr" before && freeOfAll "tr" after &&
  path.all (fun f => f.tag != "tr" && freeOfAll "tr" f.before && freeOfAll "tr" f.after) &&
  path.any (fun f => f.tag == "table")

/-- A data cell: a `td` with no cell nested in it. -/
def isCell (c : Node) : Bool := tagOf c == "td" && freeOfAll "td" (childrenOf c)

/-- A header row: a `tr` with no row nested in it. -/
def isHeaderRow (row : Node) : Bool := tagOf row == "tr" && freeOfAll "tr" (childrenOf row)

/-- A data row: a `tr` with no row nested in it, whose cells after the first are data cells
and whose first cell has no cell nested in it. -/
def isDataRow (row : Node) : Bool :=
  tagOf row == "tr" && freeOfAll "tr" (childrenOf row) &&
  (match elements (childrenOf row) with
    | [] => true
    | c :: cs => freeOfAll "td" (childrenOf c) && cs.all isCell)

/-- The children of a table body are its rows, apart from text: a header row followed by data
rows. -/
def isTableBody (body : List Node) : Bool :=
  match elements body with
  | [] => true
  | h :: rows => isHeaderRow h && rows.all isDataRow

/-- The texts of the cells of a row, in order. -/
def cellTexts (row : Node) : List (List Char) :=
  (elements (childrenOf row)).map nodeText

/-! ## The outside world -/

/-- An error value, by its message. -/
abbrev GoError := String

/-- The results of the library calls the program branches on: the HTTP client and the file
system. They are arbitrary; nothing relates one call to another. -/
structure World where
  /-- The error of `http.NewRequest("GET", url, nil)`, if any. -/
  NewRequest : List Char → Option GoError
  /-- The call `client.Do(req)` by the request's URL: the response body or an error. -/
  Do : List Char → Except GoError (List Char)
  /-- The call `ioutil.ReadAll(resp.Body)`. -/
  ReadAll : List Char → Except GoError (List Char)
  /-- The error of `ioutil.WriteFile(name, data, 0644)`, if any. -/
  WriteFile : List Char → List Char → Option GoError
  /-- The call `os.Open(path)`: the file's content or an error. -/
  Open : List Char → Except GoError (List Char)
  /-- The call `goquery.NewDocumentFromReader(reader)`. -/
  NewDocumentFromReader : List Char → Except GoError Document

/-- The format `%d` of a page number. -/
def sprintD (n : Nat) : List Char := (toString n).toList

/-- The name `fmt.Sprintf("downloads/%d.html", n)` of the file of page `n`. -/
def downloadPath (n : Nat) : List Char :=
  "downloads/".toList ++ sprintD n ++ ".html".toList

/-! ## `extractData` -/

/-- The function `extractData(docNum)`: the file of the page is opened and parsed; every selected
row gives one record from the texts of its selected cells. An error of either step is returned
with no records. -/
def extractData (w : World) (docNum : Nat) : Except GoError (List Tender) :=
  let filepath := downloadPath docNum
  match w.Open filepath with
  | .error err => .error err
  | .ok reader =>
    match w.NewDocumentFromReader reader with
    | .error err => .error err
    | .ok soup =>
      .ok (extractRows ((findRows soup).map (fun cols => (findCells cols).map nodeText)))

/-! ## `downloadHTML` -/

def target : List Char :=
  "http://myprocurement.treasury.gov.my/templates/theme427/rttender.php".toList

/-- The hard-coded page count. -/
def pageNum : Nat := 15

/-- The request URL `fmt.Sprintf("%s?%s", target, params.Encode())` with `page` set to the
page number. -/
def markOf (pageNum : Nat) : List Char :=
  target ++ "?".toList ++ ("page=".toList ++ sprintD pageNum)

/-- A channel operation of a fetch worker. -/
inductive ChanOp where
  /-- The send `workerChan <- err` (`none` is `nil`). -/
  | report (err : Option GoError)
  /-- The send `docsChan <- pageNum`. -/
  | emit (page : Nat)
  deriving DecidableEq, Repr

/-- The function `downloadHTML(pageNum, workerChan, docsChan)` as the sequence of channel sends
it performs, in order. Each failing step sends its error and returns. -/
def downloadHTML (w : World) (pageNum : Nat) : List ChanOp :=
  let mark := markOf pageNum
  match w.NewRequest mark with
  | some err => [ChanOp.report (some err)]
  | none =>
    match w.Do mark with
    | .error err => [ChanOp.report (some err)]
    | .ok body =>
      match w.ReadAll body with
      | .error err => [ChanOp.report (some err)]
      | .ok content =>
        let filename := downloadPath pageNum
        match w.WriteFile filename content with
        | some err => [ChanOp.report (some err)]
        | none => [ChanOp.report none, ChanOp.emit pageNum]

/-- The outcomes a sequence of channel operations reports on `workerChan`. -/
def reportsOf (ops : List ChanOp) : List (Option GoError) :=
  ops.filterMap (fun op => match op with
    | ChanOp.report e => some e
    | ChanOp.emit _ => none)

/-- The PageIDs a sequence of channel operations emits on `docsChan`. -/
def emitsOf (ops : List ChanOp) : List Nat :=
  ops.filterMap (fun op => match op with
    | ChanOp.report _ => none
    | ChanOp.emit p => some p)

/-! ## `processDocument` -/

/-- A Go slice: `none` is the `nil` slice, `some xs` a non-nil slice with elements `xs`. -/
abbrev Slice (α : Type) := Option (List α)

/-- The built-in `append(s, t...)`: with nothing to add the slice itself is returned, so a
`nil` slice stays `nil` and an empty non-nil slice stays non-nil. -/
def goAppend {α : Type} (s : Slice α) (t : List α) : Slice α :=
  match s with
  | none => if t.isEmpty then none else some t
  | some xs => some (xs ++ t)

/-- The JSON object of one record; `quote` is the JSON string encoder of the library. -/
def marshalTender (quote : List Char → List Char) (t : Tender) : List Char :=
  "\x7b\"title\":".toList ++ quote t.Title ++
  ",\"category\":".toList ++ quote t.Category ++
  ",\"ministry\":".toList ++ quote t.Ministry ++
  ",\"company\":".toList ++ quote t.Company ++
  ",\"value\":".toList ++ (toString t.Value).toList ++
  ",\"reason\":".toList ++ quote t.Reason ++ "\x7d".toList

/-- The call `json.Marshal(tenders)` on a slice of records: `null` for the `nil` slice, else
the array of the records' objects. It cannot fail on records of strings and an integer. -/
def jsonMarshal (quote : List Char → List Char) (tenders : Slice Tender) : List Char :=
  match tenders with
  | none => "null".toList
  | some ts => "[".toList ++ (",".toList).intercalate (ts.map (marshalTender quote)) ++ "]".toList

/-- The receive loop of `processDocument` over the PageIDs received before the channel is
closed: a failed extraction is printed and skipped, a successful one is appended. -/
def processLoop (w : World) : List Nat → Slice Tender → Slice Tender
  | [], tenders => tenders
  | d :: rest, tenders =>
    match extractData w d with
    | .error _ => processLoop w rest tenders
    | .ok info => processLoop w rest (goAppend tenders info)

/-- What `processDocument` has done when it returns. -/
structure Processed where
  /-- The collection handed to `json.Marshal`. -/
  tenders : Slice Tender
  /-- The serialized content handed to `ioutil.WriteFile("results.json", _, 0644)`. -/
  dump : List Char
  /-- The error of the write, if any (it is only printed). -/
  writeErr : Option GoError
  /-- The values sent on `processState`. -/
  processState : List Unit

/-- The function `processDocument(doc, processState)` run on the PageIDs `received` from `doc`
before it is closed. -/
def processDocument (w : World) (quote : List Char → List Char) (received : List Nat) :
    Processed :=
  let tenders := processLoop w received (some [])
  let dump := jsonMarshal quote tenders
  { tenders := tenders
    dump := dump
    writeErr := w.WriteFile "results.json".toList dump
    processState := [()] }

/-- The records of page `d` when its extraction succeeds, and `none` when it fails. -/
def recordsOf (w : World) (d : Nat) : Option (List Tender) :=
  match extractData w d with
  | .ok info => some info
  | .error _ => none

/-! ## The supervisor of `main` as a machine over its two signals -/

/-- The two completion signals the `select` of the supervisor waits on. -/
inductive Signal where
  /-- A value received from `downloadState`: all fetches have settled. -/
  | downloadState
  /-- A value received from `processState`: the aggregator is done. -/
  | processState
  deriving DecidableEq, Repr

/-- The state the supervisor acts on: the counter of `wg`, whether `docsChan` is closed, how
often it has been closed, and whether a run-time panic has occurred. -/
structure Supervisor where
  wg : Nat
  docsClosed : Bool
  closes : Nat
  panicked : Bool
  deriving DecidableEq, Repr

/-- The state after `wg.Add(2)`. -/
def Supervisor.init : Supervisor := ⟨2, false, 0, false⟩

/-- The call `wg.Done()`: a counter below zero is a panic. -/
def Supervisor.done (s : Supervisor) : Supervisor :=
  if s.wg = 0 then { s with panicked := true } else { s with wg := s.wg - 1 }

/-- The call `close(docsChan)`: closing a closed channel is a panic. -/
def Supervisor.close (s : Supervisor) : Supervisor :=
  if s.docsClosed then { s with panicked := true }
  else { s with docsClosed := true, closes := s.closes + 1 }

/-- One case of the `select`: on `downloadState`, `wg.Done()` then `close(docsChan)`; on
`processState`, `wg.Done()`. After a panic nothing runs. -/
def Supervisor.on (s : Supervisor) (sig : Signal) : Supervisor :=
  if s.panicked then s
  else
    match sig with
    | .downloadState =>
      let s1 := s.done
      if s1.panicked then s1 else s1.close
    | .processState => s.done

/-- The supervisor after the signals `sigs`, in order of arrival. -/
def Supervisor.run (sigs : List Signal) : Supervisor :=
  sigs.foldl Supervisor.on Supervisor.init

/-- Whether `wg.Wait()` in `main` returns, so that the process goes on to exit. -/
def Supervisor.waitReturns (s : Supervisor) : Bool := s.wg == 0

/-! ## The program as a transition system over all interleavings -/

/-- Where the coordinator goroutine stands: in its loop about to receive from `jobChans[k]`
(with `k = n` the loop has ended and `downloaderWg.Wait()` is next), about to send on
`downloadState`, or returned. -/
inductive CoordPc where
  | collecting (k : Nat)
  | signalling
  | finished
  deriving DecidableEq, Repr

/-- Where `processDocument` stands: in its receive loop, after the `break`, or returned. -/
inductive AggPc where
  | receiving
  | flushing
  | finished
  deriving DecidableEq, Repr

/-- Where the supervisor goroutine stands: at the `select`, in the `downloadState` case before
`wg.Done()`, in it before `close(docsChan)`, or in the `processState` case before `wg.Done()`. -/
inductive SupPc where
  | selecting
  | gotDownload
  | closing
  | gotProcess
  deriving DecidableEq, Repr

/-- The state of the running program. -/
structure Sys where
  /-- The channel sends worker `i` (page `i + 1`) has still to perform. -/
  workers : Nat → List ChanOp
  /-- The buffer (capacity 1) of `jobChans[i]`. -/
  jobChans : Nat → Option (Option GoError)
  coord : CoordPc
  /-- The counter of `downloaderWg`. -/
  downloaderWg : Nat
  /-- The number of values buffered in `downloadState` (capacity 1). -/
  downloadState : Nat
  /-- The number of values buffered in `processState` (capacity 1). -/
  processState : Nat
  docsClosed : Bool
  agg : AggPc
  /-- The PageIDs the aggregator has received from `docsChan`, in order. -/
  received : List Nat
  sup : SupPc
  /-- The counter of `wg`. -/
  wg : Nat
  mainExited : Bool
  panicked : Bool
  /-- History: the number of outcomes the coordinator has received. -/
  collected : Nat
  /-- History: the number of sends on `downloadState`. -/
  settledEmits : Nat
  /-- History: the number of executions of `close(docsChan)`. -/
  closes : Nat

/-- A step of one goroutine. -/
inductive Action where
  /-- Worker `i` performs its next send. -/
  | worker (i : Nat)
  /-- The coordinator receives the next outcome and calls `downloaderWg.Done()`. -/
  | coordRecv
  /-- The call `downloaderWg.Wait()` returns. -/
  | coordWait
  /-- The coordinator sends on `downloadState`. -/
  | coordSignal
  /-- The aggregator's receive finds `docsChan` closed and breaks out of the loop. -/
  | aggBreak
  /-- The aggregator serializes, writes and sends on `processState`. -/
  | aggFlush
  /-- The `select` receives from `downloadState`. -/
  | supRecvDownload
  /-- The `wg.Done()` of the `downloadState` case. -/
  | supDoneDownload
  /-- The `close(docsChan)` of the `downloadState` case. -/
  | supClose
  /-- The `select` receives from `processState`. -/
  | supRecvProcess
  /-- The `wg.Done()` of the `processState` case. -/
  | supDoneProcess
  /-- The call `wg.Wait()` of `main` returns and the process exits. -/
  | mainExit
  deriving DecidableEq, Repr

/-- The state once `main` has started its goroutines: worker `i` is about to run
`downloadHTML(i+1, ...)`, `downloaderWg` holds `n` and `wg` holds 2. -/
def Sys.init (n : Nat) (w : World) : Sys :=
  { workers := fun i => downloadHTML w (i + 1)
    jobChans := fun _ => none
    coord := .collecting 0
    downloaderWg := n
    downloadState := 0
    processState := 0
    docsClosed := false
    agg := .receiving
    received := []
    sup := .selecting
    wg := 2
    mainExited := false
    panicked := false
    collected := 0
    settledEmits := 0
    closes := 0 }

/-- The program `main` once its goroutines are started: `pageNum` workers, and
`downloaderWg.Add(15)` with the literal equal to `pageNum`. -/
def main (w : World) : Sys := Sys.init pageNum w

/-- The next send of worker `i`. A report goes into the worker's own buffered channel. An emit
on the unbuffered `docsChan` needs the aggregator at its receive; on a closed channel it is a
panic. -/
def stepWorker (s : Sys) (i : Nat) : Option Sys :=
  match s.workers i with
  | [] => none
  | ChanOp.report e :: rest =>
    if s.jobChans i = none then
      some { s with workers := Function.update s.workers i rest,
                    jobChans := Function.update s.jobChans i (some e) }
    else none
  | ChanOp.emit p :: rest =>
    if s.docsClosed then some { s with panicked := true }
    else if s.agg = .receiving then
      some { s with workers := Function.update s.workers i rest,
                    received := s.received ++ [p] }
    else none

/-- The step of the program for an action, for `n` workers; `none` when the action cannot be
taken in the state. After the process has exited or panicked nothing runs. -/
def step (n : Nat) (s : Sys) (a : Action) : Option Sys :=
  if s.panicked || s.mainExited then none
  else
    match a with
    | .worker i => if i < n then stepWorker s i else none
    | .coordRecv =>
      match s.coord with
      | .collecting k =>
        if k < n then
          match s.jobChans k with
          | none => none
          | some _ =>
            if s.downloaderWg = 0 then some { s with panicked := true }
            else
              some { s with jobChans := Function.update s.jobChans k none,
                            downloaderWg := s.downloaderWg - 1,
                            coord := .collecting (k + 1),
                            collected := s.collected + 1 }
        else none
      | _ => none
    | .coordWait =>
      match s.coord with
      | .collecting k =>
        if ¬ k < n ∧ s.downloaderWg = 0 then some { s with coord := .signalling } else none
      | _ => none
    | .coordSignal =>
      if s.coord = .signalling ∧ s.downloadState < 1 then
        some { s with coord := .finished, downloadState := s.downloadState + 1,
                      settledEmits := s.settledEmits + 1 }
      else none
    | .aggBreak =>
      if s.agg = .receiving ∧ s.docsClosed = true then some { s with agg := .flushing }
      else none
    | .aggFlush =>
      if s.agg = .flushing ∧ s.processState < 1 then
        some { s with agg := .finished, processState := s.processState + 1 }
      else none
    | .supRecvDownload =>
      if s.sup = .selecting ∧ 0 < s.downloadState then
        some { s with sup := .gotDownload, downloadState := s.downloadState - 1 }
      else none
    | .supDoneDownload =>
      if s.sup = .gotDownload then
        if s.wg = 0 then some { s with panicked := true }
        else some { s with sup := .closing, wg := s.wg - 1 }
      else none
    | .supClose =>
      if s.sup = .closing then
        if s.docsClosed then some { s with panicked := true }
        else some { s with sup := .selecting, docsClosed := true, closes := s.closes + 1 }
      else none
    | .supRecvProcess =>
      if s.sup = .selecting ∧ 0 < s.processState then
        some { s with sup := .gotProcess, processState := s.processState - 1 }
      else none
    | .supDoneProcess =>
      if s.sup = .gotProcess then
        if s.wg = 0 then some { s with panicked := true }
        else some { s with sup := .selecting, wg := s.wg - 1 }
      else none
    | .mainExit =>
      if s.wg = 0 then some { s with mainExited := true } else none

/-- The state after a schedule of actions, if each can be taken in turn. -/
def runSchedule (n : Nat) : Sys → List Action → Option Sys
  | s, [] => some s
  | s, a :: as =>
    match step n s a with
    | none => none
    | some s1 => runSchedule n s1 as

/-- The states some interleaving of the goroutines reaches. -/
inductive Reachable (n : Nat) (w : World) : Sys → Prop where
  | init : Reachable n w (Sys.init n w)
  | step (s s1 : Sys) (a : Action) :
      Reachable n w s → step n s a = some s1 → Reachable n w s1

/-- Worker `i` has reported success and has not yet completed its send on `docsChan`. -/
def pendingEmit (s : Sys) (i : Nat) : Bool :=
  match s.workers i with
  | [ChanOp.emit _] => true
  | _ => false

/-- The number of steps of the coordinator and the supervisor that are left until
`docsChan` is closed, once every outcome has been collected. -/
def closeDistance (s : Sys) : Nat :=
  if s.docsClosed then 0
  else
    match s.sup with
    | .closing => 1
    | .gotDownload => 2
    | _ =>
      match s.coord with
      | .finished => 3
      | .signalling => 4
      | .collecting _ => 5

/-- The facts that hold in every reachable state of the program. -/
structure Inv (n : Nat) (s : Sys) : Prop where
  coll : ∀ k, s.coord = .collecting k →
    k ≤ n ∧ s.collected = k ∧ s.downloaderWg + k = n ∧ s.settledEmits = 0
  sig : s.coord = .signalling → s.collected = n ∧ s.settledEmits = 0
  fin : s.coord = .finished → s.collected = n ∧ s.settledEmits = 1
  emits_le : s.settledEmits ≤ 1
  tokens : s.downloadState + (if s.sup = .gotDownload ∨ s.sup = .closing then 1 else 0)
    + s.closes = s.settledEmits
  closes : s.closes = if s.docsClosed = true then 1 else 0
  agg : s.agg ≠ .receiving → s.docsClosed = true
  wg_le : s.wg + (if s.sup = .closing ∨ s.docsClosed = true then 1 else 0) ≤ 2
  proc : s.processState + (if s.sup = .gotProcess then 1 else 0)
    + (2 - (if s.sup = .closing ∨ s.docsClosed = true then 1 else 0) - s.wg)
    = (if s.agg = .finished then 1 else 0)
  exited : s.mainExited = true → s.docsClosed = true
  panicked : s.panicked = true → s.docsClosed = true

/-- The facts about the workers' outcome channels that hold in every reachable state. -/
structure WorkersInv (s : Sys) : Prop where
  one : ∀ i, (reportsOf (s.workers i)).length ≤ 1
  sent : ∀ i, s.jobChans i ≠ none → reportsOf (s.workers i) = []
  got : ∀ i, i < s.collected → reportsOf (s.workers i) = [] ∧ s.jobChans i = none

/-- The outcome of worker `i` is outstanding: the worker has not yet sent it, or it sits in
`jobChans[i]` and the coordinator has not yet received it. -/
def outstanding (s : Sys) (i : Nat) : Bool :=
  !(reportsOf (s.workers i)).isEmpty || (s.jobChans i).isSome

/-! ## Sample inputs -/

/-- A page with a header row and two data rows, laid out with line breaks. -/
def samplePage : Document :=
  tablePage ["\n".toList]
    [["No".toList, "Tajuk".toList, "Kategori".toList, "Kementerian".toList,
      "Syarikat".toList, "Nilai".toList, "Sebab".toList],
     ["1".toList, "Jalan".toList, "Kerja".toList, "KKR".toList, "ABC".toList,
      "1,234,567.89".toList, "Segera".toList],
     ["2".toList, "Buku".toList, "Bekalan".toList, "KPM".toList, "XYZ".toList,
      "42".toList]]

/-- The records of the two data rows of `samplePage`. -/
def sampleRecords : List Tender :=
  [{ Title := "Jalan".toList, Category := "Kerja".toList, Ministry := "KKR".toList,
     Company := "ABC".toList, Value := 1234567, Reason := "Segera".toList },
   { Title := "Buku".toList, Category := "Bekalan".toList, Ministry := "KPM".toList,
     Company := "XYZ".toList, Value := 42, Reason := [] }]

/-- A world in which every fetch succeeds and every page file holds `samplePage`. -/
def sampleWorld : World :=
  { NewRequest := fun _ => none
    Do := fun _ => .ok []
    ReadAll := fun body => .ok body
    WriteFile := fun _ _ => none
    Open := fun _ => .ok []
    NewDocumentFromReader := fun _ => .ok samplePage }

/-- A page holding one table of three rows: the header row in a `thead`, two data rows in the
`tbody`. -/
def theadPage : Document :=
  ⟨[.element "html" [.element "head" [],
      .element "body" [.element "table"
        [.element "thead" [rowNode [] ["No".toList, "Tajuk".toList]],
         .element "tbody" [rowNode [] ["1".toList, "Jalan".toList],
                           rowNode [] ["2".toList, "Buku".toList]]]]]]⟩

/-- A page holding one table of two rows in one `tbody`; the data row has a `th` cell between
its `td` cells. -/
def thCellPage : Document :=
  ⟨[.element "html" [.element "head" [],
      .element "body" [.element "table"
        [.element "tbody"
          [rowNode [] ["No".toList, "Tajuk".toList, "Kategori".toList, "Kementerian".toList],
           .element "tr" [cellNode "1".toList, cellNode "Jalan".toList,
             .element "th" [.text "Kerja".toList], cellNode "KKR".toList]]]]]]⟩

/-- A world in which every page file holds `theadPage`. -/
def theadWorld : World :=
  { sampleWorld with NewDocumentFromReader := fun _ => .ok theadPage }

/-- A world in which every page file holds `thCellPage`. -/
def thCellWorld : World :=
  { sampleWorld with NewDocumentFromReader := fun _ => .ok thCellPage }

/-- The path to the table body of `listingPage`: a heading precedes the table and a paragraph
follows it. -/
def listingPath : List Frame :=
  [⟨"html", [.element "head" [.element "title" [.text "Tender".toList]]], []⟩,
   ⟨"body", [.element "h1" [.text "Senarai".toList]], [.element "p" [.text "Tamat".toList]]⟩,
   ⟨"div", [], []⟩,
   ⟨"table", [], []⟩]

/-- The children of the table body of `listingPage`: a header row of `th` cells and one data
row whose first cell is a `th` and whose title is a link, with line breaks between them. -/
def listingBody : List Node :=
  [.text "\n".toList,
   .element "tr" [.element "th" [.text "No".toList], .element "th" [.text "Tajuk".toList],
     .element "th" [.text "Kategori".toList]],
   .text "\n".toList,
   .element "tr" [.text " ".toList, .element "th" [.text "1".toList],
     .element "td" [.element "a" [.text "Jalan".toList], .text " Raya".toList],
     .element "td" [.text "Kerja".toList]],
   .text "\n".toList]

/-- A page holding one table inside a `div`, with other content around it. -/
def listingPage : Document := pageWith [] [] listingPath listingBody

/-- A world in which every page file holds `listingPage`. -/
def listingWorld : World :=
  { sampleWorld with NewDocumentFromReader := fun _ => .ok listingPage }

/-- A world in which no page file can be opened. -/
def missingFilesWorld : World :=
  { sampleWorld with Open := fun _ => .error "no such file or directory" }

/-- A schedule of the program with 15 pages: every worker reports its outcome, workers 1 to 14
hand their PageID to the aggregator, the coordinator receives the 15 outcomes and signals, and
the supervisor closes `docsChan`. Worker 15 has not been scheduled for its second send. -/
def raceSchedule : List Action :=
  (List.range 15).map Action.worker ++ (List.range 14).map Action.worker ++
  List.replicate 15 Action.coordRecv ++
  [Action.coordWait, Action.coordSignal, Action.supRecvDownload, Action.supDoneDownload,
   Action.supClose]

/-- The state of the program after `raceSchedule`, all fetches succeeding. -/
def raceState : Sys :=
  (runSchedule pageNum (main sampleWorld) raceSchedule).getD (main sampleWorld)

/-! # Theorems -/

/-! ## The numeric decoder -/

theorem stringsSplit_ne_nil (sep : Char) (s : List Char) : stringsSplit sep s ≠ [] := by
  induction s with
  | nil => simp [stringsSplit]
  | cons c cs ih =>
    unfold stringsSplit
    split
    · simp
    · split <;> simp

theorem stringsSplit_headD (sep : Char) (s : List Char) :
    (stringsSplit sep s).headD [] = s.takeWhile (fun c => c != sep) := by
  induction s with
  | nil => simp [stringsSplit]
  | cons c cs ih =>
    unfold stringsSplit
    by_cases h : c = sep
    · simp [h]
    · rw [if_neg h]
      have hne := stringsSplit_ne_nil sep cs
      cases hs : stringsSplit sep cs with
      | nil => exact absurd hs hne
      | cons p ps =>
        rw [hs] at ih
        simp at ih
        simp [List.takeWhile_cons, h, ih]

theorem decodeValue_eq (text : List Char) :
    decodeValue text = (ParseInt (integerPart text) 10 64).1 := by
  unfold decodeValue integerPart stringsReplaceAllEmpty
  simp only [stringsSplit_headD]

theorem digitOf_of_isDecDigit {c : Char} (h : isDecDigit c = true) :
    digitOf c = some (c.toNat - 48) := by
  unfold isDecDigit at h
  simp at h
  unfold digitOf
  rw [if_pos h]

theorem digit_lt_ten {c : Char} (h : isDecDigit c = true) : c.toNat - 48 < 10 := by
  unfold isDecDigit at h
  simp at h
  omega

theorem le_digitsFrom (ds : List Char) : ∀ n, n ≤ digitsFrom n ds := by
  induction ds with
  | nil => intro n; simp [digitsFrom]
  | cons c cs ih =>
    intro n
    have := ih (n * 10 + (c.toNat - 48))
    simp only [digitsFrom, List.foldl_cons] at this ⊢
    omega

theorem digitsFrom_cons (n : Nat) (c : Char) (cs : List Char) :
    digitsFrom n (c :: cs) = digitsFrom (n * 10 + (c.toNat - 48)) cs := rfl

theorem parseUintLoop_digits (ds : List Char) :
    ∀ n, (∀ c ∈ ds, isDecDigit c = true) → digitsFrom n ds ≤ maxUint64 →
      parseUintLoop 10 (maxUint64 / 10 + 1) (2 ^ 64 - 1) ds n = (digitsFrom n ds, none) := by
  induction ds with
  | nil => intro n _ _; simp [parseUintLoop, digitsFrom]
  | cons c cs ih =>
    intro n hd hle
    have hc : isDecDigit c = true := hd c (by simp)
    have hlt := digit_lt_ten hc
    rw [digitsFrom_cons] at hle ⊢
    have hge := le_digitsFrom cs (n * 10 + (c.toNat - 48))
    have hmax : maxUint64 = 18446744073709551615 := by decide
    rw [hmax] at hle
    have h1 : n * 10 + (c.toNat - 48) ≤ 18446744073709551615 := le_trans hge hle
    unfold parseUintLoop
    rw [digitOf_of_isDecDigit hc]
    simp only [hmax]
    have hp : (2 : Nat) ^ 64 = 18446744073709551616 := by norm_num
    simp only [hp]
    have e0 : n * 10 % 18446744073709551616 = n * 10 := Nat.mod_eq_of_lt (by omega)
    have e1 : (n * 10 + (c.toNat - 48)) % 18446744073709551616 = n * 10 + (c.toNat - 48) :=
      Nat.mod_eq_of_lt (by omega)
    rw [if_neg (by omega), if_neg (by omega)]
    simp only [e0, e1]
    rw [if_neg (by omega)]
    have := ih (n * 10 + (c.toNat - 48)) (fun x hx => hd x (by simp [hx])) (by rw [hmax]; exact hle)
    simpa [hmax, hp] using this

theorem parseUintLoop_bad (ds : List Char) (c : Char) (rest : List Char) :
    ∀ n, (∀ x ∈ ds, isDecDigit x = true) → isDecDigit c = false →
      digitsFrom n ds ≤ maxUint64 →
      parseUintLoop 10 (maxUint64 / 10 + 1) (2 ^ 64 - 1) (ds ++ c :: rest) n
        = (0, some NumError.ErrSyntax) := by
  induction ds with
  | nil =>
    intro n _ hc _
    simp only [List.nil_append]
    unfold parseUintLoop
    unfold isDecDigit at hc
    unfold digitOf
    have hc' : ¬ (48 ≤ c.toNat ∧ c.toNat ≤ 57) := by
      intro h; simp [h.1, h.2] at hc
    rw [if_neg hc']
    by_cases hl : 97 ≤ lower c.toNat ∧ lower c.toNat ≤ 122
    · rw [if_pos hl]
      have : lower c.toNat - 97 + 10 ≥ 10 := by omega
      simp only [this, if_true]
    · rw [if_neg hl]
  | cons d cs ih =>
    intro n hd hc hle
    have hdig : isDecDigit d = true := hd d (by simp)
    have hlt := digit_lt_ten hdig
    rw [digitsFrom_cons] at hle
    have hge := le_digitsFrom cs (n * 10 + (d.toNat - 48))
    have hmax : maxUint64 = 18446744073709551615 := by decide
    rw [hmax] at hle
    have h1 : n * 10 + (d.toNat - 48) ≤ 18446744073709551615 := le_trans hge hle
    simp only [List.cons_append]
    unfold parseUintLoop
    rw [digitOf_of_isDecDigit hdig]
    simp only [hmax]
    have hp : (2 : Nat) ^ 64 = 18446744073709551616 := by norm_num
    simp only [hp]
    have e0 : n * 10 % 18446744073709551616 = n * 10 := Nat.mod_eq_of_lt (by omega)
    have e1 : (n * 10 + (d.toNat - 48)) % 18446744073709551616 = n * 10 + (d.toNat - 48) :=
      Nat.mod_eq_of_lt (by omega)
    rw [if_neg (by omega), if_neg (by omega)]
    simp only [e0, e1]
    rw [if_neg (by omega)]
    have := ih (n * 10 + (d.toNat - 48)) (fun x hx => hd x (by simp [hx])) hc
      (by rw [hmax]; exact hle)
    simpa [hmax, hp] using this

theorem ParseUint_digits (ds : List Char) (hne : ds ≠ []) (hd : ∀ c ∈ ds, isDecDigit c = true)
    (hle : digitsValue ds ≤ maxUint64) :
    ParseUint ds 10 64 = (digitsValue ds, none) := by
  unfold ParseUint
  rw [if_neg hne]
  exact parseUintLoop_digits ds 0 hd hle

theorem ParseUint_malformed (body : List Char)
    (hbad : readDigits body = none)
    (hle : digitsValue (body.takeWhile isDecDigit) ≤ maxUint64) :
    ParseUint body 10 64 = (0, some NumError.ErrSyntax) := by
  unfold ParseUint
  by_cases hne : body = []
  · rw [if_pos hne]
  · rw [if_neg hne]
    unfold readDigits at hbad
    have hall : ¬ (body.all isDecDigit = true) := by
      intro h
      rw [if_pos ⟨hne, h⟩] at hbad
      exact Option.noConfusion hbad
    have hsplit := List.takeWhile_append_dropWhile isDecDigit body
    cases hdrop : body.dropWhile isDecDigit with
    | nil =>
      exfalso
      apply hall
      rw [hdrop, List.append_nil] at hsplit
      rw [List.all_eq_true]
      intro x hx
      rw [← hsplit] at hx
      exact List.mem_takeWhile_imp hx
    | cons c rest =>
      have hc : isDecDigit c = false := by
        have := List.head_dropWhile_not isDecDigit body (by rw [hdrop]; simp)
        simpa [hdrop] using this
      rw [hdrop] at hsplit
      rw [← hsplit]
      exact parseUintLoop_bad _ c rest 0 (fun x hx => List.mem_takeWhile_imp hx) hc hle

theorem readDigits_some {ds : List Char} {n : Nat} (h : readDigits ds = some n) :
    ds ≠ [] ∧ (∀ c ∈ ds, isDecDigit c = true) ∧ n = digitsValue ds := by
  unfold readDigits at h
  by_cases hc : ds ≠ [] ∧ ds.all isDecDigit = true
  · rw [if_pos hc] at h
    refine ⟨hc.1, ?_, ?_⟩
    · have := hc.2
      rw [List.all_eq_true] at this
      exact this
    · exact (Option.some.inj h).symm
  · rw [if_neg hc] at h
    exact Option.noConfusion h

theorem wrapInt64_of_range {i : Int} (h1 : -9223372036854775808 ≤ i)
    (h2 : i < 9223372036854775808) : wrapInt64 i = i := by
  unfold wrapInt64
  norm_num
  omega

theorem wrapInt64_min : wrapInt64 9223372036854775808 = -9223372036854775808 := by
  unfold wrapInt64
  norm_num

theorem ParseInt_of_ParseUint_neg (rest : List Char) (n : Nat)
    (hu : ParseUint rest 10 64 = (n, none)) (hn : n ≤ 9223372036854775808) :
    ParseInt ('-' :: rest) 10 64 = (-(n : Int), none) := by
  unfold ParseInt
  have h1 : ¬ ('-' = '+') := by decide
  simp only [h1, if_false, if_true, hu]
  have hp : (2 : Nat) ^ (64 - 1) = 9223372036854775808 := by norm_num
  simp only [hp]
  have hng : ¬ (n > 9223372036854775808) := by omega
  simp only [Bool.not_true, Bool.false_and, Bool.true_and, hng, decide_False]
  simp only [Bool.false_eq_true, if_false]
  by_cases he : n = 9223372036854775808
  · subst he
    simp only [Nat.cast_ofNat, wrapInt64_min]
    norm_num
    exact wrapInt64_min
  · have hlt : (n : Int) < 9223372036854775808 := by omega
    rw [wrapInt64_of_range (by omega) hlt, wrapInt64_of_range (by omega) (by omega)]

theorem ParseInt_of_ParseUint_pos (c : Char) (rest body : List Char) (n : Nat)
    (hc : c ≠ '-')
    (hb : body = if c = '+' then rest else c :: rest)
    (hu : ParseUint body 10 64 = (n, none)) (hn : n < 9223372036854775808) :
    ParseInt (c :: rest) 10 64 = ((n : Int), none) := by
  unfold ParseInt
  have hbody : (if c = '+' then rest else if c = '-' then rest else c :: rest) = body := by
    rw [hb, if_neg hc]
  have hneg : (if c = '+' then false else if c = '-' then true else false) = false := by
    rw [if_neg hc]; simp
  simp only [hbody, hneg, hu]
  have hp : (2 : Nat) ^ (64 - 1) = 9223372036854775808 := by norm_num
  simp only [hp]
  have hng : ¬ (n ≥ 9223372036854775808) := by omega
  simp only [Bool.not_false, Bool.true_and, Bool.false_and, hng, decide_False]
  simp only [Bool.false_eq_true, if_false]
  rw [wrapInt64_of_range (by omega) (by omega)]

theorem ParseInt_wellformed (s : List Char) (v : Int) (h : readInteger s = some v)
    (hlo : -(2 : Int) ^ 63 ≤ v) (hhi : v < (2 : Int) ^ 63) :
    ParseInt s 10 64 = (v, none) := by
  have hp : (2 : Int) ^ 63 = 9223372036854775808 := by norm_num
  rw [hp] at hlo hhi
  have hmax : maxUint64 = 18446744073709551615 := by decide
  cases s with
  | nil => simp [readInteger] at h
  | cons c rest =>
    unfold readInteger at h
    simp only at h
    by_cases hc : c = '-'
    · subst hc
      rw [if_pos rfl] at h
      have hsb : signBody ('-' :: rest) = rest := by simp [signBody]
      rw [hsb] at h
      cases hr : readDigits rest with
      | none => rw [hr] at h; simp at h
      | some n =>
        rw [hr] at h
        simp at h
        obtain ⟨hne, hd, hn⟩ := readDigits_some hr
        subst h
        have hn' : n ≤ 9223372036854775808 := by omega
        have hu := ParseUint_digits rest hne hd (by rw [← hn, hmax]; omega)
        rw [← hn] at hu
        exact ParseInt_of_ParseUint_neg rest n hu hn'
    · rw [if_neg hc] at h
      have hsb : signBody (c :: rest) = if c = '+' then rest else c :: rest := by
        simp [signBody, hc]
      rw [hsb] at h
      cases hr : readDigits (if c = '+' then rest else c :: rest) with
      | none => rw [hr] at h; simp at h
      | some n =>
        rw [hr] at h
        simp at h
        obtain ⟨hne, hd, hn⟩ := readDigits_some hr
        subst h
        have hn' : n < 9223372036854775808 := by omega
        have hu := ParseUint_digits _ hne hd (by rw [← hn, hmax]; omega)
        rw [← hn] at hu
        exact ParseInt_of_ParseUint_pos c rest _ n hc rfl hu hn'

theorem ParseInt_malformed (s : List Char) (hbad : readDigits (signBody s) = none)
    (hle : digitsValue ((signBody s).takeWhile isDecDigit) ≤ maxUint64) :
    ParseInt s 10 64 = (0, some NumError.ErrSyntax) := by
  cases s with
  | nil => rfl
  | cons c rest =>
    have hu := ParseUint_malformed (signBody (c :: rest)) hbad hle
    have hbody : (if c = '+' then rest else if c = '-' then rest else c :: rest)
        = signBody (c :: rest) := by
      unfold signBody
      by_cases h1 : c = '+'
      · simp [h1]
      · by_cases h2 : c = '-'
        · simp [h2]
        · simp [h1, h2]
    unfold ParseInt
    simp only [hbody, hu]

theorem eachIdx_cellCallback_ge (cells : List (List Char)) :
    ∀ (i : Nat) (t : Tender), 6 ≤ i → eachIdx cellCallback i cells t = t := by
  induction cells with
  | nil => intro i t _; rfl
  | cons c cs ih =>
    intro i t hi
    unfold eachIdx
    rw [ih (i + 1) _ (by omega)]
    obtain ⟨k, rfl⟩ : ∃ k, i = k + 6 := ⟨i - 6, by omega⟩
    rfl

theorem tenderOfCells_eq (cells : List (List Char)) :
    tenderOfCells cells =
      { Title := cells.getD 0 [], Category := cells.getD 1 [], Ministry := cells.getD 2 [],
        Company := cells.getD 3 [],
        Value := match cells.get? 4 with
          | some text => decodeValue text
          | none => 0,
        Reason := cells.getD 5 [] } := by
  unfold tenderOfCells
  match cells with
  | [] => rfl
  | [_] => rfl
  | [_, _] => rfl
  | [_, _, _] => rfl
  | [_, _, _, _] => rfl
  | [_, _, _, _, _] => rfl
  | a :: b :: c :: d :: e :: f :: rest =>
    simp only [eachIdx]
    rw [eachIdx_cellCallback_ge rest _ _ (by omega)]
    rfl

theorem extractRows_eq_map (rows : List (List (List Char))) :
    extractRows rows = rows.map tenderOfCells := by
  unfold extractRows
  have key : ∀ (rs : List (List (List Char))) (i : Nat) (acc : List Tender),
      eachIdx (fun tenders _ cols => tenders ++ [tenderOfCells cols]) i rs acc
        = acc ++ rs.map tenderOfCells := by
    intro rs
    induction rs with
    | nil => intro i acc; simp [eachIdx]
    | cons r rs ih => intro i acc; simp [eachIdx, ih]
  simpa using key rows 0 []

theorem readInteger_none {s : List Char} (h : readInteger s = none) :
    readDigits (signBody s) = none := by
  cases s with
  | nil => rfl
  | cons c rest =>
    unfold readInteger at h
    simp only at h
    cases hr : readDigits (signBody (c :: rest)) with
    | none => rfl
    | some n =>
      rw [hr] at h
      by_cases hc : c = '-'
      · simp [hc] at h
      · simp [hc] at h

/-- C6: when the text of the numeric cell, with every `,` removed and cut at the first `.`, is a
well-formed base-10 integer `v` that fits 64 bits, the record's `Value` is `v`. -/
theorem C6_numeric_cell_value (cells : List (List Char)) (text : List Char) (v : Int)
    (hcell : cells.get? 4 = some text)
    (hread : readInteger (integerPart text) = some v)
    (hlo : -(2 : Int) ^ 63 ≤ v) (hhi : v < (2 : Int) ^ 63) :
    (tenderOfCells cells).Value = v := by
  rw [tenderOfCells_eq]
  simp only [hcell]
  rw [decodeValue_eq, ParseInt_wellformed _ v hread hlo hhi]

/-- C6 at the two inputs the specification names: `1,234,567.89` gives 1234567 and `42`
gives 42. -/
theorem C6_numeric_cell_value_witness :
    (tenderOfCells [[], [], [], [], "1,234,567.89".toList]).Value = 1234567 ∧
    (tenderOfCells [[], [], [], [], "42".toList, []]).Value = 42 :=
  ⟨C6_numeric_cell_value _ "1,234,567.89".toList 1234567 (by decide) (by decide)
      (by decide) (by decide),
   C6_numeric_cell_value _ "42".toList 42 (by decide) (by decide) (by decide) (by decide)⟩

/-- C7, as the claim states it, fails: the digit string `9223372036854775808` is not an integer
representable in 64 bits, and the record's `Value` is 9223372036854775807, not 0; with trailing
letters, `99999999999999999999abc` is no integer at all and gives the same value. -/
theorem C7_overflow_counterexample :
    readInteger (integerPart "9223372036854775808".toList) = some 9223372036854775808 ∧
    ¬ ((9223372036854775808 : Int) < 2 ^ 63) ∧
    (tenderOfCells [[], [], [], [], "9223372036854775808".toList]).Value
      = 9223372036854775807 ∧
    readInteger (integerPart "99999999999999999999abc".toList) = none ∧
    (tenderOfCells [[], [], [], [], "99999999999999999999abc".toList]).Value
      = 9223372036854775807 := by
  refine ⟨by decide, by decide, by decide, by decide, by decide⟩

/-- C7, amended: when the text of the numeric cell, with every `,` removed and cut at the first
`.`, is not a well-formed base-10 integer, and the run of digits it starts with (after an
optional sign) does not exceed `2^64 - 1`, the record's `Value` is 0; the row's record is still
emitted, at the row's position, with its other fields taken from the other cells. -/
theorem C7_malformed_cell_defaults (rows : List (List (List Char))) (i : Nat)
    (cells : List (List Char)) (text : List Char)
    (hrow : rows.get? i = some cells) (hcell : cells.get? 4 = some text)
    (hbad : readInteger (integerPart text) = none)
    (hle : digitsValue ((signBody (integerPart text)).takeWhile isDecDigit) ≤ maxUint64) :
    (extractRows rows).length = rows.length ∧
    (extractRows rows).get? i = some
      { Title := cells.getD 0 [], Category := cells.getD 1 [], Ministry := cells.getD 2 [],
        Company := cells.getD 3 [], Value := 0, Reason := cells.getD 5 [] } := by
  rw [extractRows_eq_map]
  refine ⟨by simp, ?_⟩
  rw [List.get?_eq_getElem?, List.getElem?_map, ← List.get?_eq_getElem?, hrow]
  simp only [Option.map_some']
  rw [tenderOfCells_eq]
  simp only [hcell]
  rw [decodeValue_eq, ParseInt_malformed _ (readInteger_none hbad) hle]

/-- C7 (amended) at the inputs the specification names: `abc` and the empty text give 0, and
the row is emitted with its other fields. -/
theorem C7_malformed_cell_defaults_witness :
    (extractRows [["T".toList, "C".toList, "M".toList, "Co".toList, "abc".toList,
        "R".toList]]).get? 0 =
      some { Title := "T".toList, Category := "C".toList, Ministry := "M".toList,
             Company := "Co".toList, Value := 0, Reason := "R".toList } ∧
    (extractRows [[[], [], [], [], []]]).get? 0 = some Tender.zero :=
  ⟨(C7_malformed_cell_defaults
      [["T".toList, "C".toList, "M".toList, "Co".toList, "abc".toList, "R".toList]] 0
      ["T".toList, "C".toList, "M".toList, "Co".toList, "abc".toList, "R".toList]
      "abc".toList (by decide) (by decide) (by decide) (by decide)).2,
   (C7_malformed_cell_defaults [[[], [], [], [], []]] 0 [[], [], [], [], []] []
      (by decide) (by decide) (by decide) (by decide)).2⟩

/-! ## The aggregator -/

theorem processLoop_some (w : World) (received : List Nat) :
    ∀ acc : List Tender, processLoop w received (some acc) =
      some (acc ++ (received.filterMap (recordsOf w)).flatten) := by
  induction received with
  | nil => intro acc; simp [processLoop]
  | cons d rest ih =>
    intro acc
    unfold processLoop
    cases h : extractData w d with
    | error e =>
      have hr : recordsOf w d = none := by simp [recordsOf, h]
      simp [ih, List.filterMap_cons, hr]
    | ok info =>
      have hr : recordsOf w d = some info := by simp [recordsOf, h]
      simp [goAppend, ih, List.filterMap_cons, hr]

theorem filterMap_all_ok (w : World) (received : List Nat) (R : Nat → List Tender)
    (hok : ∀ d ∈ received, extractData w d = .ok (R d)) :
    received.filterMap (recordsOf w) = received.map R := by
  induction received with
  | nil => rfl
  | cons d rest ih =>
    have h1 := hok d (by simp)
    have hr : recordsOf w d = some (R d) := by simp [recordsOf, h1]
    rw [List.filterMap_cons, hr]
    simp only [List.map_cons]
    rw [ih (fun x hx => hok x (by simp [hx]))]

theorem length_flatten_map (received : List Nat) (R : Nat → List Tender) :
    ((received.map R).flatten).length = (received.map (fun d => (R d).length)).sum := by
  induction received with
  | nil => rfl
  | cons d rest ih => simp [ih]

/-- C1: when every extraction succeeds and page `d` yields the records `R d`, the collection that
`processDocument` serializes is the concatenation of the pages' records in order of receipt,
and its length is the sum of the pages' record counts. -/
theorem C1_all_pages_concatenated (w : World) (quote : List Char → List Char)
    (received : List Nat) (R : Nat → List Tender)
    (hok : ∀ d ∈ received, extractData w d = .ok (R d)) :
    (processDocument w quote received).tenders = some ((received.map R).flatten) ∧
    (processDocument w quote received).dump
      = jsonMarshal quote (some ((received.map R).flatten)) ∧
    ((received.map R).flatten).length = (received.map (fun d => (R d).length)).sum := by
  have h : processLoop w received (some []) = some ((received.map R).flatten) := by
    rw [processLoop_some, filterMap_all_ok w received R hok]
    simp
  refine ⟨?_, ?_, length_flatten_map received R⟩
  · simpa [processDocument] using h
  · simp [processDocument, h]

/-- C5: a page whose extraction fails leaves the collection as it was and the loop goes on with
the next PageID; the collection serialized at the end is the concatenation, in order of receipt,
of the records of exactly the pages whose extraction succeeded. -/
theorem C5_failed_pages_skipped (w : World) (quote : List Char → List Char)
    (received : List Nat) :
    (∀ (d : Nat) (rest : List Nat) (tenders : Slice Tender) (err : GoError),
        extractData w d = .error err →
        processLoop w (d :: rest) tenders = processLoop w rest tenders) ∧
    (processDocument w quote received).tenders
      = some ((received.filterMap (recordsOf w)).flatten) ∧
    (∀ t ∈ ((processDocument w quote received).tenders).getD [],
        ∃ d ∈ received, ∃ info, extractData w d = .ok info ∧ t ∈ info) := by
  have h := processLoop_some w received []
  simp only [List.nil_append] at h
  refine ⟨?_, ?_, ?_⟩
  · intro d rest tenders err he
    simp [processLoop, he]
  · simpa [processDocument] using h
  · intro t ht
    have : (processDocument w quote received).tenders
        = some ((received.filterMap (recordsOf w)).flatten) := by
      simpa [processDocument] using h
    rw [this] at ht
    simp only [Option.getD_some, List.mem_flatten, List.mem_filterMap] at ht
    obtain ⟨info, ⟨d, hd, hinfo⟩, htin⟩ := ht
    refine ⟨d, hd, info, ?_, htin⟩
    unfold recordsOf at hinfo
    cases hx : extractData w d with
    | error e => rw [hx] at hinfo; simp at hinfo
    | ok i =>
      rw [hx] at hinfo
      simp at hinfo
      rw [hinfo]

/-- C10: when no received page yields a record (none was received, or each failed or gave zero
rows), the content handed to the write of `results.json` is the empty JSON array `[]`, not
`null`, and the completion signal is sent once. -/
theorem C10_empty_run_writes_empty_array (w : World) (quote : List Char → List Char)
    (received : List Nat)
    (hnone : ∀ d ∈ received, ∀ info, extractData w d = .ok info → info = []) :
    (processDocument w quote received).tenders = some [] ∧
    (processDocument w quote received).dump = "[]".toList ∧
    (processDocument w quote received).dump ≠ "null".toList ∧
    (processDocument w quote received).writeErr = w.WriteFile "results.json".toList "[]".toList ∧
    (processDocument w quote received).processState = [()] := by
  have h := processLoop_some w received []
  have hempty : (received.filterMap (recordsOf w)).flatten = [] := by
    rw [List.flatten_eq_nil_iff]
    intro l hl
    rw [List.mem_filterMap] at hl
    obtain ⟨d, hd, hinfo⟩ := hl
    unfold recordsOf at hinfo
    cases hx : extractData w d with
    | error e => rw [hx] at hinfo; simp at hinfo
    | ok i =>
      rw [hx] at hinfo
      simp at hinfo
      rw [← hinfo]
      exact hnone d hd i hx
  rw [hempty] at h
  simp only [List.nil_append] at h
  have hd : (processDocument w quote received).dump = "[]".toList := by
    simp only [processDocument, h, jsonMarshal, List.map_nil]
    decide
  refine ⟨by simpa [processDocument] using h, hd, ?_, ?_, rfl⟩
  · rw [hd]; decide
  · simp only [processDocument, h]
    rfl

/-! ## The fetch worker -/

/-- C4: `downloadHTML` reports exactly one outcome, first of all its sends; it emits its own
PageID, once, exactly when that outcome is `nil`; a failure of the request construction, the
network call, the body read or the file write reports that step's error and emits nothing. -/
theorem C4_worker_reports_once (w : World) (page : Nat) :
    (∃ outcome, reportsOf (downloadHTML w page) = [outcome] ∧
      (downloadHTML w page).head? = some (ChanOp.report outcome) ∧
      emitsOf (downloadHTML w page) = (if outcome = none then [page] else [])) ∧
    (∀ err, w.NewRequest (markOf page) = some err →
      downloadHTML w page = [ChanOp.report (some err)]) ∧
    (∀ err, w.NewRequest (markOf page) = none → w.Do (markOf page) = .error err →
      downloadHTML w page = [ChanOp.report (some err)]) ∧
    (∀ body err, w.NewRequest (markOf page) = none → w.Do (markOf page) = .ok body →
      w.ReadAll body = .error err →
      downloadHTML w page = [ChanOp.report (some err)]) ∧
    (∀ body content err, w.NewRequest (markOf page) = none → w.Do (markOf page) = .ok body →
      w.ReadAll body = .ok content → w.WriteFile (downloadPath page) content = some err →
      downloadHTML w page = [ChanOp.report (some err)]) ∧
    (∀ body content, w.NewRequest (markOf page) = none → w.Do (markOf page) = .ok body →
      w.ReadAll body = .ok content → w.WriteFile (downloadPath page) content = none →
      downloadHTML w page = [ChanOp.report none, ChanOp.emit page]) := by
  have e1 : ∀ err, w.NewRequest (markOf page) = some err →
      downloadHTML w page = [ChanOp.report (some err)] := by
    intro err h1; simp [downloadHTML, h1]
  have e2 : ∀ err, w.NewRequest (markOf page) = none → w.Do (markOf page) = .error err →
      downloadHTML w page = [ChanOp.report (some err)] := by
    intro err h1 h2; simp [downloadHTML, h1, h2]
  have e3 : ∀ body err, w.NewRequest (markOf page) = none → w.Do (markOf page) = .ok body →
      w.ReadAll body = .error err →
      downloadHTML w page = [ChanOp.report (some err)] := by
    intro body err h1 h2 h3; simp [downloadHTML, h1, h2, h3]
  have e4 : ∀ body content err, w.NewRequest (markOf page) = none →
      w.Do (markOf page) = .ok body → w.ReadAll body = .ok content →
      w.WriteFile (downloadPath page) content = some err →
      downloadHTML w page = [ChanOp.report (some err)] := by
    intro body content err h1 h2 h3 h4; simp [downloadHTML, h1, h2, h3, h4]
  have e5 : ∀ body content, w.NewRequest (markOf page) = none →
      w.Do (markOf page) = .ok body → w.ReadAll body = .ok content →
      w.WriteFile (downloadPath page) content = none →
      downloadHTML w page = [ChanOp.report none, ChanOp.emit page] := by
    intro body content h1 h2 h3 h4; simp [downloadHTML, h1, h2, h3, h4]
  refine ⟨?_, e1, e2, e3, e4, e5⟩
  cases h1 : w.NewRequest (markOf page) with
  | some e => exact ⟨some e, by simp [e1 e h1, reportsOf, emitsOf]⟩
  | none =>
    cases h2 : w.Do (markOf page) with
    | error e => exact ⟨some e, by simp [e2 e h1 h2, reportsOf, emitsOf]⟩
    | ok body =>
      cases h3 : w.ReadAll body with
      | error e => exact ⟨some e, by simp [e3 body e h1 h2 h3, reportsOf, emitsOf]⟩
      | ok content =>
        cases h4 : w.WriteFile (downloadPath page) content with
        | some e => exact ⟨some e, by simp [e4 body content e h1 h2 h3 h4, reportsOf, emitsOf]⟩
        | none => exact ⟨none, by simp [e5 body content h1 h2 h3 h4, reportsOf, emitsOf]⟩

/-! ## The supervisor -/

theorem nodup_signals_cases (sigs : List Signal) (h : sigs.Nodup) :
    sigs = [] ∨ sigs = [Signal.downloadState] ∨ sigs = [Signal.processState] ∨
    sigs = [Signal.downloadState, Signal.processState] ∨
    sigs = [Signal.processState, Signal.downloadState] := by
  match sigs, h with
  | [], _ => simp
  | [a], _ => cases a <;> simp
  | [a, b], h => cases a <;> cases b <;> simp at h ⊢
  | a :: b :: c :: rest, h =>
    exfalso
    cases a <;> cases b <;> cases c <;> simp at h

/-- C9: for signals that each arrive at most once, the `wg.Wait()` of `main` returns exactly
when both signals have been observed, in either order, and never after only one of them;
`docsChan` is closed exactly when the `downloadState` signal has been observed, once, and each
observed signal changes the number of closes by one for `downloadState` and not at all for
`processState`; no panic occurs. -/
theorem C9_supervisor_waits_for_both (sigs : List Signal) (hnd : sigs.Nodup) :
    ((Supervisor.run sigs).waitReturns = true ↔
      (Signal.downloadState ∈ sigs ∧ Signal.processState ∈ sigs)) ∧
    ((Supervisor.run sigs).docsClosed = true ↔ Signal.downloadState ∈ sigs) ∧
    (Supervisor.run sigs).closes = sigs.count Signal.downloadState ∧
    (∀ sig, (sigs ++ [sig]).Nodup →
      (Supervisor.run (sigs ++ [sig])).closes =
        (Supervisor.run sigs).closes + (if sig = Signal.downloadState then 1 else 0)) ∧
    (Supervisor.run sigs).panicked = false := by
  have hc := nodup_signals_cases sigs hnd
  refine ⟨?_, ?_, ?_, ?_, ?_⟩
  · rcases hc with h | h | h | h | h <;> subst h <;> decide
  · rcases hc with h | h | h | h | h <;> subst h <;> decide
  · rcases hc with h | h | h | h | h <;> subst h <;> decide
  · intro sig hnd2
    rcases hc with h | h | h | h | h <;> subst h <;> cases sig <;>
      first
        | decide
        | (exfalso; revert hnd2; decide)
  · rcases hc with h | h | h | h | h <;> subst h <;> decide

/-- C9 at both orders of arrival: the wait returns after the two signals, in either order. -/
theorem C9_supervisor_waits_for_both_witness :
    (Supervisor.run [Signal.downloadState, Signal.processState]).waitReturns = true ∧
    (Supervisor.run [Signal.processState, Signal.downloadState]).waitReturns = true ∧
    (Supervisor.run [Signal.processState]).waitReturns = false :=
  ⟨(C9_supervisor_waits_for_both [Signal.downloadState, Signal.processState]
      (by decide)).1.mpr (by decide),
   (C9_supervisor_waits_for_both [Signal.processState, Signal.downloadState]
      (by decide)).1.mpr (by decide),
   by decide⟩

/-! ## The record extractor -/

mutual
theorem matchAll_freeOf (c : Compound) (cs : List Compound) :
    ∀ (n : Node) (anc : List (String × Bool)) (first : Bool),
      freeOf c.tag n = true → matchAll (c :: cs) anc first n = []
  | .text _, _, _, _ => by rw [matchAll]
  | .element t kids, anc, first, h => by
    rw [freeOf] at h
    simp only [Bool.and_eq_true, bne_iff_ne, ne_eq] at h
    rw [matchAll, matchAllChildren_freeOf c cs kids _ _ h.2]
    have hm : matchChain (c :: cs) (t, first) anc = false := by
      have : (c.tag == t) = false := by
        rw [beq_eq_false_iff_ne]
        exact fun e => h.1 e.symm
      simp [matchChain, Compound.matches, this]
    simp [hm]
theorem matchAllChildren_freeOf (c : Compound) (cs : List Compound) :
    ∀ (ns : List Node) (anc : List (String × Bool)) (first : Bool),
      freeOfAll c.tag ns = true → matchAllChildren (c :: cs) anc first ns = []
  | [], _, _, _ => by rw [matchAllChildren]
  | .text _ :: rest, anc, first, h => by
    rw [freeOfAll] at h
    simp only [Bool.and_eq_true] at h
    rw [matchAllChildren]
    exact matchAllChildren_freeOf c cs rest anc first h.2
  | .element t kids :: rest, anc, first, h => by
    rw [freeOfAll] at h
    simp only [Bool.and_eq_true] at h
    rw [matchAllChildren, matchAll_freeOf c cs (.element t kids) anc first h.1,
      matchAllChildren_freeOf c cs rest anc false h.2]
    rfl
end

theorem cells_rest :
    ∀ (ks : List Node) (anc : List (String × Bool)),
      (elements ks).all isCell = true →
      matchAllChildren [⟨"td", true⟩] anc false ks = elements ks
  | [], _, _ => by rw [matchAllChildren, elements]
  | .text _ :: rest, anc, h => by
    rw [elements] at h
    rw [matchAllChildren, elements]
    exact cells_rest rest anc h
  | .element t kids :: rest, anc, h => by
    rw [elements, List.all_cons, Bool.and_eq_true] at h
    obtain ⟨hc, hrest⟩ := h
    simp only [isCell, tagOf, childrenOf, Bool.and_eq_true, beq_iff_eq] at hc
    obtain ⟨ht, hfree⟩ := hc
    subst ht
    rw [matchAllChildren, matchAll, elements, cells_rest rest anc hrest,
      matchAllChildren_freeOf ⟨"td", true⟩ [] kids _ _ hfree]
    simp [matchChain, Compound.matches]

theorem cells_first :
    ∀ (ks : List Node) (anc : List (String × Bool)),
      (match elements ks with
        | [] => true
        | c :: cs => freeOfAll "td" (childrenOf c) && cs.all isCell) = true →
      matchAllChildren [⟨"td", true⟩] anc true ks = (elements ks).tail
  | [], _, _ => by rw [matchAllChildren, elements]; rfl
  | .text _ :: rest, anc, h => by
    rw [elements] at h
    rw [matchAllChildren, elements]
    exact cells_first rest anc h
  | .element t kids :: rest, anc, h => by
    rw [elements] at h
    simp only [childrenOf, Bool.and_eq_true] at h
    obtain ⟨hfree, hrest⟩ := h
    rw [matchAllChildren, matchAll, elements, cells_rest rest anc hrest,
      matchAllChildren_freeOf ⟨"td", true⟩ [] kids _ _ hfree]
    simp [matchChain, Compound.matches]

theorem findCells_dataRow (row : Node) (h : isDataRow row = true) :
    (findCells row).map nodeText = (cellTexts row).tail := by
  cases row with
  | text d => simp [isDataRow, tagOf] at h
  | element t rk =>
    simp only [isDataRow, tagOf, childrenOf, Bool.and_eq_true] at h
    unfold findCells cellTexts
    simp only [childrenOf]
    rw [cells_first rk _ h.2, List.map_tail]

theorem anyAncestor_table (anc : List (String × Bool)) :
    anyAncestor (matchChain [⟨"table", false⟩]) anc = anc.any (fun a => a.1 == "table") := by
  induction anc with
  | nil => rfl
  | cons a as ih =>
    rw [anyAncestor, ih, List.any_cons]
    congr 1
    simp [matchChain, Compound.matches]
    exact eq_comm

theorem matchChain_row (anc : List (String × Bool)) (f first : Bool)
    (h : anc.any (fun a => a.1 == "table") = true) :
    matchChain [⟨"tr", true⟩, ⟨"tbody", false⟩, ⟨"table", false⟩] ("tr", first)
      (("tbody", f) :: anc) = !first := by
  have h2 : matchChain [⟨"tbody", false⟩, ⟨"table", false⟩] ("tbody", f) anc = true := by
    rw [matchChain]
    simp only [List.isEmpty_cons, Bool.false_or]
    rw [anyAncestor_table, h]
    simp [Compound.matches]
  rw [matchChain, anyAncestor, h2]
  simp [Compound.matches]

theorem rows_rest (anc : List (String × Bool)) (f : Bool)
    (hanc : anc.any (fun a => a.1 == "table") = true) :
    ∀ (ks : List Node), (elements ks).all isDataRow = true →
      matchAllChildren [⟨"tr", true⟩, ⟨"tbody", false⟩, ⟨"table", false⟩]
        (("tbody", f) :: anc) false ks = elements ks
  | [], _ => by rw [matchAllChildren, elements]
  | .text _ :: rest, h => by
    rw [elements] at h
    rw [matchAllChildren, elements]
    exact rows_rest anc f hanc rest h
  | .element t kids :: rest, h => by
    rw [elements, List.all_cons, Bool.and_eq_true] at h
    obtain ⟨hr, hrest⟩ := h
    simp only [isDataRow, tagOf, childrenOf, Bool.and_eq_true, beq_iff_eq] at hr
    obtain ⟨⟨ht, hfree⟩, _⟩ := hr
    subst ht
    rw [matchAllChildren, matchAll, elements, rows_rest anc f hanc rest hrest,
      matchAllChildren_freeOf ⟨"tr", true⟩ _ kids _ _ hfree, matchChain_row anc f false hanc]
    rfl

theorem rows_first (anc : List (String × Bool)) (f : Bool)
    (hanc : anc.any (fun a => a.1 == "table") = true) :
    ∀ (ks : List Node), isTableBody ks = true →
      matchAllChildren [⟨"tr", true⟩, ⟨"tbody", false⟩, ⟨"table", false⟩]
        (("tbody", f) :: anc) true ks = (elements ks).tail
  | [], _ => by rw [matchAllChildren, elements]; rfl
  | .text _ :: rest, h => by
    have h2 : isTableBody rest = true := by
      simpa [isTableBody, elements] using h
    rw [matchAllChildren, elements]
    exact rows_first anc f hanc rest h2
  | .element t kids :: rest, h => by
    simp only [isTableBody, elements, Bool.and_eq_true] at h
    obtain ⟨hh, hrest⟩ := h
    simp only [isHeaderRow, tagOf, childrenOf, Bool.and_eq_true, beq_iff_eq] at hh
    obtain ⟨ht, hfree⟩ := hh
    subst ht
    rw [matchAllChildren, matchAll, elements, rows_rest anc f hanc rest hrest,
      matchAllChildren_freeOf ⟨"tr", true⟩ _ kids _ _ hfree, matchChain_row anc f true hanc]
    rfl

theorem matchAllChildren_free_prefix (c : Compound) (cs : List Compound)
    (anc : List (String × Bool)) (rest : List Node) :
    ∀ (pre : List Node) (first : Bool), freeOfAll c.tag pre = true →
      ∃ first1, matchAllChildren (c :: cs) anc first (pre ++ rest)
        = matchAllChildren (c :: cs) anc first1 rest
  | [], first, _ => ⟨first, rfl⟩
  | .text _ :: pre, first, h => by
    rw [freeOfAll] at h
    simp only [Bool.and_eq_true] at h
    obtain ⟨f1, hf⟩ := matchAllChildren_free_prefix c cs anc rest pre first h.2
    refine ⟨f1, ?_⟩
    rw [List.cons_append, matchAllChildren, hf]
  | .element t kids :: pre, first, h => by
    rw [freeOfAll] at h
    simp only [Bool.and_eq_true] at h
    obtain ⟨f1, hf⟩ := matchAllChildren_free_prefix c cs anc rest pre false h.2
    refine ⟨f1, ?_⟩
    rw [List.cons_append, matchAllChildren, matchAll_freeOf c cs _ anc first h.1, hf]
    rfl

theorem matchAll_plug (body : List Node) (hbody : isTableBody body = true) :
    ∀ (path : List Frame) (anc : List (String × Bool)) (first : Bool),
      path.all (fun f => f.tag != "tr" && freeOfAll "tr" f.before && freeOfAll "tr" f.after)
        = true →
      (path.any (fun f => f.tag == "table") || anc.any (fun a => a.1 == "table")) = true →
      matchAll [⟨"tr", true⟩, ⟨"tbody", false⟩, ⟨"table", false⟩] anc first
        (plug path (.element "tbody" body)) = (elements body).tail
  | [], anc, first, _, htab => by
    simp only [List.any_nil, Bool.false_or] at htab
    rw [plug, matchAll, rows_first anc first htab body hbody]
    simp [matchChain, Compound.matches]
  | f :: fs, anc, first, hall, htab => by
    rw [List.all_cons] at hall
    simp only [Bool.and_eq_true, bne_iff_ne, ne_eq] at hall
    obtain ⟨⟨⟨htag, hb⟩, ha⟩, hrest⟩ := hall
    have htab2 : (fs.any (fun f => f.tag == "table") ||
        ((f.tag, first) :: anc).any (fun a => a.1 == "table")) = true := by
      rw [List.any_cons] at htab ⊢
      simp only [Bool.or_eq_true] at htab ⊢
      tauto
    rw [plug, matchAll]
    obtain ⟨f1, hf⟩ := matchAllChildren_free_prefix ⟨"tr", true⟩
      [⟨"tbody", false⟩, ⟨"table", false⟩] ((f.tag, first) :: anc)
      (plug fs (.element "tbody" body) :: f.after) f.before true hb
    rw [hf]
    have hin := matchAll_plug body hbody fs ((f.tag, first) :: anc) f1 (by simpa using hrest) htab2
    have hm : matchChain [⟨"tr", true⟩, ⟨"tbody", false⟩, ⟨"table", false⟩] (f.tag, first) anc
        = false := by
      have : (("tr" : String) == f.tag) = false := by
        rw [beq_eq_false_iff_ne]
        exact fun e => htag e.symm
      simp [matchChain, Compound.matches, this]
    have hstep : matchAllChildren [⟨"tr", true⟩, ⟨"tbody", false⟩, ⟨"table", false⟩]
        ((f.tag, first) :: anc) f1 (plug fs (.element "tbody" body) :: f.after)
        = (elements body).tail := by
      cases hp : plug fs (.element "tbody" body) with
      | text d =>
        exfalso
        cases fs <;> simp [plug] at hp
      | element t k =>
        rw [hp] at hin
        rw [matchAllChildren, hin,
          matchAllChildren_freeOf ⟨"tr", true⟩ _ f.after _ _ ha]
        simp
    rw [hstep, hm]
    rfl

theorem findRows_pageWith (before after : List Node) (path : List Frame) (body : List Node)
    (hout : rowsOnlyInBody before after path = true) (hbody : isTableBody body = true) :
    findRows (pageWith before after path body) = (elements body).tail := by
  simp only [rowsOnlyInBody, Bool.and_eq_true] at hout
  obtain ⟨⟨⟨hb, ha⟩, hall⟩, hany⟩ := hout
  unfold findRows pageWith
  simp only [List.flatMap_append, List.flatMap_cons]
  have hfree : ∀ (ns : List Node), freeOfAll "tr" ns = true →
      ns.flatMap (fun n => matchAll [⟨"tr", true⟩, ⟨"tbody", false⟩, ⟨"table", false⟩]
        [] false n) = [] := by
    intro ns
    induction ns with
    | nil => intro _; rfl
    | cons n ns ih =>
      intro h
      rw [freeOfAll] at h
      simp only [Bool.and_eq_true] at h
      rw [List.flatMap_cons, ih h.2, matchAll_freeOf ⟨"tr", true⟩ _ n [] false h.1]
      rfl
  rw [hfree before hb, hfree after ha,
    matchAll_plug body hbody path [] false hall (by simp [hany])]
  simp

theorem mem_tail_dataRow (body : List Node) (hbody : isTableBody body = true) :
    ∀ row ∈ (elements body).tail, isDataRow row = true := by
  intro row hrow
  unfold isTableBody at hbody
  cases he : elements body with
  | nil => rw [he] at hrow; simp at hrow
  | cons h rows =>
    rw [he] at hbody hrow
    simp only [Bool.and_eq_true, List.all_eq_true] at hbody
    exact hbody.2 row (by simpa using hrow)

theorem extractData_pageWith (w : World) (docNum : Nat) (reader : List Char)
    (before after : List Node) (path : List Frame) (body : List Node)
    (hopen : w.Open (downloadPath docNum) = .ok reader)
    (hparse : w.NewDocumentFromReader reader = .ok (pageWith before after path body))
    (hout : rowsOnlyInBody before after path = true) (hbody : isTableBody body = true) :
    extractData w docNum
      = .ok ((elements body).tail.map (fun row => tenderOfCells (cellTexts row).tail)) := by
  unfold extractData
  simp only [hopen, hparse]
  rw [findRows_pageWith before after path body hout hbody, extractRows_eq_map]
  simp only [List.map_map]
  congr 1
  apply List.map_congr_left
  intro row hrow
  simp [findCells_dataRow row (mem_tail_dataRow body hbody row hrow)]

theorem getD_tail (cells : List (List Char)) (k : Nat) :
    cells.tail.getD k [] = cells.getD (k + 1) [] := by
  cases cells <;> simp

theorem get?_tail' {α : Type} (l : List α) (k : Nat) : l.tail.get? k = l.get? (k + 1) := by
  cases l <;> simp

/-- C8, as the claim states it, fails: `theadPage` holds one table of three rows and
`extractData` returns one record, not two, because the header row lies in a `thead` and the
first row of the `tbody` is skipped; on `thCellPage` the cell after the title is a `th`, and
`Category` is taken from the cell after it. -/
theorem C8_thead_counterexample :
    (allRows theadPage).length = 3 ∧
    extractData theadWorld 1 = .ok [{ Tender.zero with Title := "Buku".toList }] ∧
    [{ Tender.zero with Title := "Buku".toList }].length ≠ 3 - 1 ∧
    (allRows thCellPage).length = 2 ∧
    extractData thCellWorld 1
      = .ok [{ Tender.zero with Title := "Jalan".toList, Category := "KKR".toList }] ∧
    "KKR".toList ≠ "Kerja".toList :=
  ⟨by decide, rfl, by decide, by decide, rfl, by decide⟩

/-- C8, amended: for a page that loads and holds one table whose rows are all children of one
`tbody` (none elsewhere on the page, none nested in a row), the first of them the header row,
and in whose data rows every cell after the first is a `td` with no cell nested in a cell,
`extractData` returns one record less than there are rows, the `i`-th of them built from row
`i + 1`; in each record the cells after the first are mapped, in order, to `Title`, `Category`,
`Ministry`, `Company`, `Value` and `Reason`, further cells are ignored and a missing cell leaves
the empty text, or 0 for `Value`. -/
theorem C8_one_record_per_data_row (w : World) (docNum : Nat) (reader : List Char)
    (before after : List Node) (path : List Frame) (body : List Node)
    (hopen : w.Open (downloadPath docNum) = .ok reader)
    (hparse : w.NewDocumentFromReader reader = .ok (pageWith before after path body))
    (hout : rowsOnlyInBody before after path = true)
    (hbody : isTableBody body = true) :
    ∃ tenders, extractData w docNum = .ok tenders ∧
      tenders.length = (elements body).length - 1 ∧
      ∀ i row, (elements body).get? (i + 1) = some row →
        tenders.get? i = some
          { Title := (cellTexts row).getD 1 [], Category := (cellTexts row).getD 2 [],
            Ministry := (cellTexts row).getD 3 [], Company := (cellTexts row).getD 4 [],
            Value := match (cellTexts row).get? 5 with
              | some text => decodeValue text
              | none => 0,
            Reason := (cellTexts row).getD 6 [] } := by
  refine ⟨_, extractData_pageWith w docNum reader before after path body hopen hparse hout
    hbody, by simp, ?_⟩
  intro i row hrow
  rw [List.get?_eq_getElem?, List.getElem?_map, ← List.get?_eq_getElem?, get?_tail', hrow]
  simp only [Option.map_some']
  rw [tenderOfCells_eq]
  simp only [getD_tail, get?_tail']

/-- C8 (amended) on `listingPage`, a header row and one data row: one record, with the title
and the category of the data row. -/
theorem C8_one_record_per_data_row_witness :
    ∃ tenders, extractData listingWorld 1 = .ok tenders ∧ tenders.length = 1 ∧
      tenders.get? 0
        = some { Tender.zero with Title := "Jalan Raya".toList, Category := "Kerja".toList } := by
  obtain ⟨tenders, h, hlen, hget⟩ :=
    C8_one_record_per_data_row listingWorld 1 [] [] [] listingPath listingBody rfl rfl
      (by decide) (by decide)
  exact ⟨tenders, h, hlen, (hget 0 _ rfl).trans (by decide)⟩

/-- C1 on three pages of two records each: six records are serialized. -/
theorem C1_all_pages_concatenated_witness :
    (processDocument sampleWorld id [1, 2, 3]).tenders
      = some (sampleRecords ++ sampleRecords ++ sampleRecords) ∧
    (sampleRecords ++ sampleRecords ++ sampleRecords).length = 6 := by
  have h := C1_all_pages_concatenated sampleWorld id [1, 2, 3] (fun _ => sampleRecords)
    (fun d _ => rfl)
  exact ⟨by simpa using h.1, by decide⟩

/-- C10 on a run whose two received pages both fail extraction, and on a run with no page. -/
theorem C10_empty_run_writes_empty_array_witness :
    (processDocument missingFilesWorld id [1, 2]).dump = "[]".toList ∧
    (processDocument sampleWorld id []).dump = "[]".toList :=
  ⟨(C10_empty_run_writes_empty_array missingFilesWorld id [1, 2]
      (fun d _ info h => by simp [extractData, missingFilesWorld] at h)).2.1,
   (C10_empty_run_writes_empty_array sampleWorld id []
      (fun d hd => by simp at hd)).2.1⟩

/-! ## Invariants of the interleaving semantics -/

set_option linter.unusedTactic false
set_option linter.unreachableTactic false
set_option linter.unnecessarySeqFocus false

theorem inv_init (n : Nat) (w : World) : Inv n (Sys.init n w) := by
  constructor <;> simp [Sys.init]

theorem inv_stepWorker (n : Nat) (s s1 : Sys) (i : Nat) (hinv : Inv n s)
    (h : stepWorker s i = some s1) : Inv n s1 := by
  unfold stepWorker at h
  obtain ⟨h1, h2, h3, h4, h5, h6, h7, h8, h9, h10, h11⟩ := hinv
  split at h
  · simp at h
  · split at h
    · injection h with h; subst h
      exact ⟨h1, h2, h3, h4, h5, h6, h7, h8, h9, h10, h11⟩
    · simp at h
  · split at h
    · rename_i hc
      injection h with h; subst h
      exact ⟨h1, h2, h3, h4, h5, h6, h7, h8, h9, h10, fun _ => hc⟩
    · split at h
      · injection h with h; subst h
        exact ⟨h1, h2, h3, h4, h5, h6, h7, h8, h9, h10, h11⟩
      · simp at h

theorem closed_of_wg_zero (n : Nat) (s : Sys) (hinv : Inv n s) (hz : s.wg = 0) :
    s.docsClosed = true := by
  by_contra hd
  have ha : s.agg = AggPc.receiving := by
    by_contra ha
    exact hd (hinv.agg ha)
  have h9 := hinv.proc
  simp only [hz, ha, hd] at h9
  simp at h9
  split_ifs at h9 <;> exact h9.2

theorem inv_coordRecv (n : Nat) (s s1 : Sys) (hinv : Inv n s)
    (h : step n s Action.coordRecv = some s1) : Inv n s1 := by
  have hwz := closed_of_wg_zero n s hinv
  unfold step at h
  split at h
  · simp at h
  · rename_i hlive
    simp only [Bool.or_eq_true, not_or, Bool.not_eq_true] at hlive
    obtain ⟨h1, h2, h3, h4, h5, h6, h7, h8, h9, h10, h11⟩ := hinv
    simp only at h
    split at h
    · rename_i k hk
      have hk1 := h1 k hk
      split at h
      · rename_i hkn
        split at h
        · simp at h
        · split at h
          · omega
          · injection h with h; subst h
            constructor <;> simp_all <;> (try split_ifs at *) <;> (try omega)
      · simp at h
    · simp at h


theorem inv_coordWait (n : Nat) (s s1 : Sys) (hinv : Inv n s)
    (h : step n s Action.coordWait = some s1) : Inv n s1 := by
  have hwz := closed_of_wg_zero n s hinv
  unfold step at h
  split at h
  · simp at h
  · rename_i hlive
    simp only [Bool.or_eq_true, not_or, Bool.not_eq_true] at hlive
    obtain ⟨h1, h2, h3, h4, h5, h6, h7, h8, h9, h10, h11⟩ := hinv
    simp only at h
    split at h
    · rename_i k hk
      have hk1 := h1 k hk
      split at h
      · rename_i hg
        injection h with h; subst h
        constructor <;> simp_all <;> (try split_ifs at *) <;> (try omega)
      · simp at h
    · simp at h


theorem inv_coordSignal (n : Nat) (s s1 : Sys) (hinv : Inv n s)
    (h : step n s Action.coordSignal = some s1) : Inv n s1 := by
  have hwz := closed_of_wg_zero n s hinv
  unfold step at h
  split at h
  · simp at h
  · rename_i hlive
    simp only [Bool.or_eq_true, not_or, Bool.not_eq_true] at hlive
    obtain ⟨h1, h2, h3, h4, h5, h6, h7, h8, h9, h10, h11⟩ := hinv
    simp only at h
    split at h
    · rename_i hg
      injection h with h; subst h
      constructor <;> simp_all <;> (try split_ifs at *) <;> (try omega)
    · simp at h


theorem inv_aggBreak (n : Nat) (s s1 : Sys) (hinv : Inv n s)
    (h : step n s Action.aggBreak = some s1) : Inv n s1 := by
  have hwz := closed_of_wg_zero n s hinv
  unfold step at h
  split at h
  · simp at h
  · rename_i hlive
    simp only [Bool.or_eq_true, not_or, Bool.not_eq_true] at hlive
    obtain ⟨h1, h2, h3, h4, h5, h6, h7, h8, h9, h10, h11⟩ := hinv
    simp only at h
    split at h
    · rename_i hg
      injection h with h; subst h
      constructor <;> simp_all <;> (try split_ifs at *) <;> (try omega)
    · simp at h


theorem inv_aggFlush (n : Nat) (s s1 : Sys) (hinv : Inv n s)
    (h : step n s Action.aggFlush = some s1) : Inv n s1 := by
  have hwz := closed_of_wg_zero n s hinv
  unfold step at h
  split at h
  · simp at h
  · rename_i hlive
    simp only [Bool.or_eq_true, not_or, Bool.not_eq_true] at hlive
    obtain ⟨h1, h2, h3, h4, h5, h6, h7, h8, h9, h10, h11⟩ := hinv
    simp only at h
    split at h
    · rename_i hg
      injection h with h; subst h
      constructor <;> simp_all <;> (try split_ifs at *) <;> (try omega)
    · simp at h


theorem inv_supRecvDownload (n : Nat) (s s1 : Sys) (hinv : Inv n s)
    (h : step n s Action.supRecvDownload = some s1) : Inv n s1 := by
  have hwz := closed_of_wg_zero n s hinv
  unfold step at h
  split at h
  · simp at h
  · rename_i hlive
    simp only [Bool.or_eq_true, not_or, Bool.not_eq_true] at hlive
    obtain ⟨h1, h2, h3, h4, h5, h6, h7, h8, h9, h10, h11⟩ := hinv
    simp only at h
    split at h
    · rename_i hg
      injection h with h; subst h
      constructor <;> simp_all <;> (try split_ifs at *) <;> (try omega)
    · simp at h


theorem inv_supRecvProcess (n : Nat) (s s1 : Sys) (hinv : Inv n s)
    (h : step n s Action.supRecvProcess = some s1) : Inv n s1 := by
  have hwz := closed_of_wg_zero n s hinv
  unfold step at h
  split at h
  · simp at h
  · rename_i hlive
    simp only [Bool.or_eq_true, not_or, Bool.not_eq_true] at hlive
    obtain ⟨h1, h2, h3, h4, h5, h6, h7, h8, h9, h10, h11⟩ := hinv
    simp only at h
    split at h
    · rename_i hg
      injection h with h; subst h
      constructor <;> simp_all <;> (try split_ifs at *) <;> (try omega)
    · simp at h


theorem inv_mainExit (n : Nat) (s s1 : Sys) (hinv : Inv n s)
    (h : step n s Action.mainExit = some s1) : Inv n s1 := by
  have hwz := closed_of_wg_zero n s hinv
  unfold step at h
  split at h
  · simp at h
  · rename_i hlive
    simp only [Bool.or_eq_true, not_or, Bool.not_eq_true] at hlive
    obtain ⟨h1, h2, h3, h4, h5, h6, h7, h8, h9, h10, h11⟩ := hinv
    simp only at h
    split at h
    · rename_i hg
      injection h with h; subst h
      exact ⟨h1, h2, h3, h4, h5, h6, h7, h8, h9, fun _ => hwz hg, h11⟩
    · simp at h


theorem inv_supDoneDownload (n : Nat) (s s1 : Sys) (hinv : Inv n s)
    (h : step n s Action.supDoneDownload = some s1) : Inv n s1 := by
  have hwz := closed_of_wg_zero n s hinv
  unfold step at h
  split at h
  · simp at h
  · rename_i hlive
    simp only [Bool.or_eq_true, not_or, Bool.not_eq_true] at hlive
    obtain ⟨h1, h2, h3, h4, h5, h6, h7, h8, h9, h10, h11⟩ := hinv
    simp only at h
    by_cases hg : s.sup = SupPc.gotDownload
    · rw [if_pos hg] at h
      split at h
      · rename_i hz
        injection h with h; subst h
        refine ⟨h1, h2, h3, h4, h5, h6, h7, h8, h9, h10, fun _ => ?_⟩
        exact hwz hz
      · rename_i hz
        injection h with h; subst h
        constructor <;> simp_all <;> (try split_ifs at *) <;> (try omega)
    · rw [if_neg hg] at h
      simp at h


theorem inv_supClose (n : Nat) (s s1 : Sys) (hinv : Inv n s)
    (h : step n s Action.supClose = some s1) : Inv n s1 := by
  have hwz := closed_of_wg_zero n s hinv
  unfold step at h
  split at h
  · simp at h
  · rename_i hlive
    simp only [Bool.or_eq_true, not_or, Bool.not_eq_true] at hlive
    obtain ⟨h1, h2, h3, h4, h5, h6, h7, h8, h9, h10, h11⟩ := hinv
    simp only at h
    by_cases hg : s.sup = SupPc.closing
    · rw [if_pos hg] at h
      split at h
      · rename_i hz
        injection h with h; subst h
        refine ⟨h1, h2, h3, h4, h5, h6, h7, h8, h9, h10, fun _ => ?_⟩
        exact hz
      · rename_i hz
        injection h with h; subst h
        constructor <;> simp_all <;> (try split_ifs at *) <;> (try omega)
    · rw [if_neg hg] at h
      simp at h


theorem inv_supDoneProcess (n : Nat) (s s1 : Sys) (hinv : Inv n s)
    (h : step n s Action.supDoneProcess = some s1) : Inv n s1 := by
  have hwz := closed_of_wg_zero n s hinv
  unfold step at h
  split at h
  · simp at h
  · rename_i hlive
    simp only [Bool.or_eq_true, not_or, Bool.not_eq_true] at hlive
    obtain ⟨h1, h2, h3, h4, h5, h6, h7, h8, h9, h10, h11⟩ := hinv
    simp only at h
    by_cases hg : s.sup = SupPc.gotProcess
    · rw [if_pos hg] at h
      split at h
      · rename_i hz
        injection h with h; subst h
        refine ⟨h1, h2, h3, h4, h5, h6, h7, h8, h9, h10, fun _ => ?_⟩
        exact hwz hz
      · rename_i hz
        injection h with h; subst h
        constructor <;> simp_all <;> (try split_ifs at *) <;> (try omega)
    · rw [if_neg hg] at h
      simp at h


theorem inv_step (n : Nat) (s s1 : Sys) (a : Action) (hinv : Inv n s)
    (h : step n s a = some s1) : Inv n s1 := by
  cases a with
  | worker i =>
    unfold step at h
    split at h
    · simp at h
    · simp only at h
      split at h
      · exact inv_stepWorker n s s1 i hinv h
      · simp at h
  | coordRecv => exact inv_coordRecv n s s1 hinv h
  | coordWait => exact inv_coordWait n s s1 hinv h
  | coordSignal => exact inv_coordSignal n s s1 hinv h
  | aggBreak => exact inv_aggBreak n s s1 hinv h
  | aggFlush => exact inv_aggFlush n s s1 hinv h
  | supRecvDownload => exact inv_supRecvDownload n s s1 hinv h
  | supDoneDownload => exact inv_supDoneDownload n s s1 hinv h
  | supClose => exact inv_supClose n s s1 hinv h
  | supRecvProcess => exact inv_supRecvProcess n s s1 hinv h
  | supDoneProcess => exact inv_supDoneProcess n s s1 hinv h
  | mainExit => exact inv_mainExit n s s1 hinv h

theorem inv_of_reachable (n : Nat) (w : World) (s : Sys) (h : Reachable n w s) : Inv n s := by
  induction h with
  | init => exact inv_init n w
  | step s s1 a _ hstep ih => exact inv_step n s s1 a ih hstep

theorem downloadHTML_shape (w : World) (page : Nat) :
    (∃ err, downloadHTML w page = [ChanOp.report (some err)]) ∨
    downloadHTML w page = [ChanOp.report none, ChanOp.emit page] := by
  cases h1 : w.NewRequest (markOf page) with
  | some e => exact Or.inl ⟨e, by simp [downloadHTML, h1]⟩
  | none =>
    cases h2 : w.Do (markOf page) with
    | error e => exact Or.inl ⟨e, by simp [downloadHTML, h1, h2]⟩
    | ok body =>
      cases h3 : w.ReadAll body with
      | error e => exact Or.inl ⟨e, by simp [downloadHTML, h1, h2, h3]⟩
      | ok content =>
        cases h4 : w.WriteFile (downloadPath page) content with
        | some e => exact Or.inl ⟨e, by simp [downloadHTML, h1, h2, h3, h4]⟩
        | none => exact Or.inr (by simp [downloadHTML, h1, h2, h3, h4])

theorem reportsOf_downloadHTML (w : World) (page : Nat) :
    (reportsOf (downloadHTML w page)).length = 1 := by
  rcases downloadHTML_shape w page with ⟨e, h⟩ | h <;> rw [h] <;> rfl

theorem step_frame (n : Nat) (s s1 : Sys) (a : Action) (h : step n s a = some s1)
    (hw : ∀ i, a ≠ Action.worker i) (hc : a ≠ Action.coordRecv) :
    s1.workers = s.workers ∧ s1.jobChans = s.jobChans ∧ s1.collected = s.collected := by
  unfold step at h
  split at h
  · simp at h
  · cases a with
    | worker i => exact absurd rfl (hw i)
    | coordRecv => exact absurd rfl hc
    | _ =>
      simp only at h
      repeat' split at h
      all_goals first
        | (injection h with h; subst h; exact ⟨rfl, rfl, rfl⟩)
        | (exact absurd h (by simp))

theorem workersInv_init (n : Nat) (w : World) : WorkersInv (Sys.init n w) := by
  refine ⟨fun i => ?_, fun i h => ?_, fun i h => ?_⟩
  · exact le_of_eq (reportsOf_downloadHTML w (i + 1))
  · simp [Sys.init] at h
  · simp [Sys.init] at h

theorem reportsOf_report (e : Option GoError) (rest : List ChanOp) :
    reportsOf (ChanOp.report e :: rest) = e :: reportsOf rest := by
  simp [reportsOf]

theorem reportsOf_emit (p : Nat) (rest : List ChanOp) :
    reportsOf (ChanOp.emit p :: rest) = reportsOf rest := by
  simp [reportsOf]

theorem workersInv_stepWorker (s s1 : Sys) (i : Nat) (hinv : WorkersInv s)
    (h : stepWorker s i = some s1) : WorkersInv s1 := by
  unfold stepWorker at h
  obtain ⟨h1, h2, h3⟩ := hinv
  split at h
  · simp at h
  · rename_i e rest hw
    split at h
    · injection h with h; subst h
      have hone := h1 i
      rw [hw, reportsOf_report] at hone
      have hrest : reportsOf rest = [] := by
        cases hr : reportsOf rest with
        | nil => rfl
        | cons x xs => rw [hr] at hone; simp at hone
      have hne : ∀ j, j < s.collected → j ≠ i := by
        intro j hj hji
        have := (h3 j hj).1
        rw [hji, hw, reportsOf_report] at this
        simp at this
      refine ⟨fun j => ?_, fun j hj => ?_, fun j hj => ?_⟩
      · by_cases hji : j = i
        · subst hji; simp [hrest]
        · simpa [Function.update_noteq hji] using h1 j
      · by_cases hji : j = i
        · subst hji; simp [hrest]
        · simp only [Function.update_noteq hji] at hj ⊢
          exact h2 j hj
      · have hji := hne j hj
        simp only [Function.update_noteq hji]
        exact h3 j hj
    · simp at h
  · rename_i p rest hw
    split at h
    · injection h with h; subst h
      exact ⟨h1, h2, h3⟩
    · split at h
      · injection h with h; subst h
        have hsame : ∀ j, reportsOf (Function.update s.workers i rest j)
            = reportsOf (s.workers j) := by
          intro j
          by_cases hji : j = i
          · subst hji
            simp only [Function.update_same]
            rw [hw, reportsOf_emit]
          · simp only [Function.update_noteq hji]
        refine ⟨fun j => ?_, fun j hj => ?_, fun j hj => ?_⟩
        · simp only [hsame]; exact h1 j
        · simp only [hsame]; exact h2 j hj
        · simp only [hsame]; exact h3 j hj
      · simp at h

theorem workersInv_coordRecv (n : Nat) (s s1 : Sys) (hinv : Inv n s) (hw : WorkersInv s)
    (h : step n s Action.coordRecv = some s1) : WorkersInv s1 := by
  obtain ⟨h1, h2, h3⟩ := hw
  unfold step at h
  split at h
  · simp at h
  · simp only at h
    split at h
    · rename_i k hk
      have hcoll := (hinv.coll k hk).2.1
      split at h
      · split at h
        · simp at h
        · rename_i e hjob
          split at h
          · injection h with h; subst h
            exact ⟨h1, h2, h3⟩
          · injection h with h; subst h
            refine ⟨h1, fun j hj => ?_, fun j hj => ?_⟩
            · by_cases hjk : j = k
              · subst hjk; simp at hj
              · simp only [Function.update_noteq hjk] at hj
                exact h2 j hj
            · simp only at hj ⊢
              by_cases hjk : j = k
              · subst hjk
                refine ⟨h2 j (by rw [hjob]; simp), by simp⟩
              · simp only [Function.update_noteq hjk]
                exact h3 j (by omega)
      · simp at h
    · simp at h

theorem workersInv_step (n : Nat) (s s1 : Sys) (a : Action) (hinv : Inv n s)
    (hw : WorkersInv s) (h : step n s a = some s1) : WorkersInv s1 := by
  by_cases hwk : ∃ i, a = Action.worker i
  · obtain ⟨i, rfl⟩ := hwk
    unfold step at h
    split at h
    · simp at h
    · simp only at h
      split at h
      · exact workersInv_stepWorker s s1 i hw h
      · simp at h
  · by_cases hc : a = Action.coordRecv
    · subst hc
      exact workersInv_coordRecv n s s1 hinv hw h
    · obtain ⟨e1, e2, e3⟩ := step_frame n s s1 a h (fun i hi => hwk ⟨i, hi⟩) hc
      obtain ⟨h1, h2, h3⟩ := hw
      refine ⟨fun j => ?_, fun j hj => ?_, fun j hj => ?_⟩
      · rw [e1]; exact h1 j
      · rw [e1]; rw [e2] at hj; exact h2 j hj
      · rw [e1, e2]; rw [e3] at hj; exact h3 j hj

theorem workersInv_of_reachable (n : Nat) (w : World) (s : Sys) (h : Reachable n w s) :
    WorkersInv s := by
  induction h with
  | init => exact workersInv_init n w
  | step s s1 a hr hstep ih =>
    exact workersInv_step n s s1 a (inv_of_reachable n w s hr) ih hstep

theorem live_of_open (n : Nat) (s : Sys) (hinv : Inv n s) (hd : s.docsClosed = false) :
    (s.panicked || s.mainExited) = false := by
  have h1 : s.panicked = false := by
    cases hp : s.panicked with
    | false => rfl
    | true => have := hinv.panicked hp; rw [hd] at this; exact absurd this (by simp)
  have h2 : s.mainExited = false := by
    cases hp : s.mainExited with
    | false => rfl
    | true => have := hinv.exited hp; rw [hd] at this; exact absurd this (by simp)
  simp [h1, h2]

theorem progress_to_close (n : Nat) (s : Sys) (hinv : Inv n s) (hc : s.collected = n)
    (hd : s.docsClosed = false) :
    ∃ a s1, step n s a = some s1 ∧ closeDistance s1 < closeDistance s := by
  have hlive := live_of_open n s hinv hd
  have hagg : s.agg = AggPc.receiving := by
    by_contra ha
    have := hinv.agg ha
    rw [hd] at this
    exact absurd this (by simp)
  have hwg : s.wg ≠ 0 := by
    intro hz
    have := closed_of_wg_zero n s hinv hz
    rw [hd] at this
    exact absurd this (by simp)
  have hcl := hinv.closes
  simp only [hd] at hcl
  simp at hcl
  have htok := hinv.tokens
  cases hs : s.sup with
  | closing =>
    refine ⟨Action.supClose,
      { s with sup := .selecting, docsClosed := true, closes := s.closes + 1 }, ?_, ?_⟩
    · simp [step, hlive, hs, hd]
    · simp [closeDistance, hs, hd]
  | gotDownload =>
    refine ⟨Action.supDoneDownload, { s with sup := .closing, wg := s.wg - 1 }, ?_, ?_⟩
    · simp [step, hlive, hs, hwg]
    · simp [closeDistance, hs, hd]
  | gotProcess =>
    exfalso
    have := hinv.proc
    simp [hs, hagg] at this
  | selecting =>
    simp only [hs] at htok
    simp at htok
    cases hco : s.coord with
    | collecting k =>
      obtain ⟨_, h2, h3, _⟩ := hinv.coll k hco
      have hkn : k = n := by omega
      have hz : s.downloaderWg = 0 := by omega
      refine ⟨Action.coordWait, { s with coord := .signalling }, ?_, ?_⟩
      · simp [step, hlive, hco, hkn, hz]
      · simp [closeDistance, hs, hd, hco]
    | signalling =>
      obtain ⟨_, h2⟩ := hinv.sig hco
      have hz : s.downloadState = 0 := by omega
      refine ⟨Action.coordSignal,
        { s with coord := .finished, downloadState := s.downloadState + 1,
                 settledEmits := s.settledEmits + 1 }, ?_, ?_⟩
      · simp [step, hlive, hco, hz]
      · simp [closeDistance, hs, hd, hco]
    | finished =>
      obtain ⟨_, h2⟩ := hinv.fin hco
      have hz : 0 < s.downloadState := by omega
      refine ⟨Action.supRecvDownload,
        { s with sup := .gotDownload, downloadState := s.downloadState - 1 }, ?_, ?_⟩
      · simp [step, hlive, hs, hz]
      · simp [closeDistance, hs, hd, hco]

theorem closeDistance_stepWorker (s s1 : Sys) (i : Nat) (h : stepWorker s i = some s1) :
    closeDistance s1 = closeDistance s ∧ s1.settledEmits = s.settledEmits ∧
    s1.closes = s.closes := by
  unfold stepWorker at h
  repeat' split at h
  all_goals first
    | (injection h with h; subst h; exact ⟨rfl, rfl, rfl⟩)
    | (exact absurd h (by simp))

theorem monotone_step (n : Nat) (s s1 : Sys) (a : Action) (h : step n s a = some s1) :
    closeDistance s1 ≤ closeDistance s ∧ s.settledEmits ≤ s1.settledEmits ∧
    s.closes ≤ s1.closes := by
  unfold step at h
  split at h
  · simp at h
  · cases a with
    | worker i =>
      simp only at h
      split at h
      · obtain ⟨e1, e2, e3⟩ := closeDistance_stepWorker s s1 i h
        omega
      · simp at h
    | _ =>
      simp only at h
      repeat' split at h
      all_goals first
        | (injection h with h; subst h
           cases hs : s.sup <;> cases hc : s.coord <;> cases hd : s.docsClosed <;>
             simp_all [closeDistance])
        | (exact absurd h (by simp))

/-! ## The closing protocol -/

theorem reachable_runSchedule (n : Nat) (w : World) (sched : List Action) :
    ∀ s, Reachable n w s → Reachable n w ((runSchedule n s sched).getD s) := by
  induction sched with
  | nil => intro s hs; exact hs
  | cons a as ih =>
    intro s hs
    unfold runSchedule
    cases hstep : step n s a with
    | none => exact hs
    | some s1 =>
      have h1 : Reachable n w s1 := Reachable.step s s1 a hs hstep
      have h2 := ih s1 h1
      simp only
      cases hr : runSchedule n s1 as with
      | none => exact hs
      | some s2 =>
        rw [hr] at h2
        exact h2

theorem reachable_raceState : Reachable pageNum sampleWorld raceState :=
  reachable_runSchedule pageNum sampleWorld raceSchedule _ Reachable.init

/-- C3: in every reachable state, `docsChan` is closed only if the coordinator has received all
`n` outcomes and no worker's outcome is outstanding; the settled signal is sent at most once and
only after all `n` outcomes, and the channel is closed at most once and only after the signal;
once all `n` outcomes are collected and the channel is still open, a step of the coordinator or
the supervisor towards the close is enabled, and no step of any goroutine undoes that progress,
the signal or the close. -/
theorem C3_closed_only_after_all_outcomes (n : Nat) (w : World) (s : Sys)
    (h : Reachable n w s) :
    (s.docsClosed = true → s.collected = n ∧ ∀ i, i < n → outstanding s i = false) ∧
    s.settledEmits ≤ 1 ∧ (s.settledEmits = 1 → s.collected = n) ∧
    s.closes ≤ s.settledEmits ∧ (s.docsClosed = true ↔ s.closes = 1) ∧
    (s.collected = n → s.docsClosed = false →
      ∃ a s1, step n s a = some s1 ∧ closeDistance s1 < closeDistance s) ∧
    (∀ a s1, step n s a = some s1 →
      closeDistance s1 ≤ closeDistance s ∧ s.settledEmits ≤ s1.settledEmits ∧
      s.closes ≤ s1.closes) := by
  have hinv := inv_of_reachable n w s h
  have hw := workersInv_of_reachable n w s h
  have hemit : s.settledEmits = 1 → s.collected = n := by
    intro he
    cases hc : s.coord with
    | collecting k => have := (hinv.coll k hc).2.2.2; omega
    | signalling => exact (hinv.sig hc).1
    | finished => exact (hinv.fin hc).1
  have hcl := hinv.closes
  have htok := hinv.tokens
  have hle := hinv.emits_le
  have hclosed : s.docsClosed = true → s.collected = n := by
    intro hd
    simp only [hd, if_true] at hcl
    exact hemit (by omega)
  refine ⟨fun hd => ⟨hclosed hd, fun i hi => ?_⟩, hle, hemit, by omega, ?_,
    progress_to_close n s hinv, fun a s1 => monotone_step n s s1 a⟩
  · have hg := hw.got i (by rw [hclosed hd]; exact hi)
    simp [outstanding, hg.1, hg.2]
  · constructor
    · intro hd; simp only [hd, if_true] at hcl; exact hcl
    · intro hc
      by_contra hd
      simp only [hd] at hcl
      simp at hcl
      omega

/-- C3 at the state after the 15 outcomes have been collected and the channel closed. -/
theorem C3_closed_only_after_all_outcomes_witness :
    Reachable pageNum sampleWorld raceState ∧ raceState.docsClosed = true ∧
    raceState.collected = 15 ∧ raceState.settledEmits = 1 ∧ raceState.closes = 1 :=
  ⟨reachable_raceState, by decide,
   ((C3_closed_only_after_all_outcomes pageNum sampleWorld raceState reachable_raceState).1
      (by decide)).1,
   by decide, by decide⟩

/-- C2 fails on the code: with all 15 fetches succeeding there is a reachable state in which
`docsChan` is closed while worker 15, which has reported success, has not completed its send of
PageID 15; the aggregator has received pages 1 to 14 only, and the worker's next step is a send
on the closed channel, which panics. -/
theorem C2_closed_with_pending_send :
    Reachable pageNum sampleWorld raceState ∧
    reportsOf (downloadHTML sampleWorld 15) = [none] ∧
    raceState.docsClosed = true ∧
    pendingEmit raceState 14 = true ∧
    raceState.workers 14 = [ChanOp.emit 15] ∧
    raceState.received = [1, 2, 3, 4, 5, 6, 7, 8, 9, 10, 11, 12, 13, 14] ∧
    raceState.panicked = false ∧
    (step pageNum raceState (Action.worker 14)).map (fun s => s.panicked) = some true := by
  refine ⟨reachable_raceState, by decide, by decide, by decide, by decide, by decide,
    by decide, by decide⟩

end DurianRuntuh
